import Mathlib

/-!
Shallow embedding of the elaborator core of `src/bootstrap/analyse.ts` (and the
CLI driver of `src/bootstrap/main.ts`) of the typelang bootstrap compiler.

Embedding conventions, used throughout:

* TypeScript object identity is replaced by numeric ids: `Symbol`, `Variable`
  and `Unknown` nodes are interned in the state `St` and an expression holds
  the id.  Object identity tests (`===`) on those nodes become id equality;
  two distinct interned nodes never compare equal, exactly as in the source.
* The mutable fields of `Unknown` and `Symbol` nodes live in `St`; every
  function that the source writes against `this` (solver, evaluator, type
  solver) is state-passing here, returning `Res α`.
* `Res.fuel` models non-termination: recursions that the source runs on an
  unbounded work queue are given explicit fuel.  `Res.panic` models
  `assert`/`panic()` failures.
* The source's numeric `value` fields only ever hold natural numbers (digit
  literals from the lexer, `succ`, `max`), so `Nat` is used.
* `Logger.info(closure)` calls never evaluate their closure under the default
  `NO_LOG` logger, so logging is omitted (this matters: some log closures in
  the source call `getType`).
* The `WeakMap` type cache is keyed structurally here, where the source keys
  by object identity.
* `unwrapUnknown` follows `value` chains; the embedded `St.unwrap` bounds the
  walk by the number of unknowns ever created, which agrees with the source
  whenever the resolved-unknown graph is acyclic (the documented invariant).
-/

namespace TL

/-- `Expression` (analyse.ts): the expression algebra.  `sym`/`var`/`unk`
hold interned ids; `loc` fields are omitted (never consulted by the core). -/
inductive Expr where
  | sym (id : Nat)
  | var (id : Nat)
  | str (value : String)
  | num (isLevel : Bool) (value : Nat)
  | lam (arg : Option Nat) (argType : Expr) (body : Expr) (color : Nat)
  | fnType (arg : Option Nat) (inputType : Expr) (outputType : Expr) (color : Nat)
  | call (fn : Expr) (arg : Expr) (color : Nat)
  | unk (id : Nat)
deriving DecidableEq, Repr

/-- `Constraint` (analyse.ts): the four constraint kinds.  Targets and the
`expr` of `equalWithReplace`/`typeof` are Unknown ids, `replaces` maps
Variable ids to expressions (association list preserving insertion order,
like the source's `Map`). -/
inductive Constraint where
  | equal (expr1 expr2 : Expr)
  | equalWithReplace (target : Nat) (expr : Nat) (replaces : List (Nat × Expr))
  | fnTypeType (target : Nat) (type1 type2 : Expr)
  | typeofC (target : Nat) (expr : Nat)
deriving DecidableEq, Repr

/-- Mutable state of an `UnknownExpression`. -/
structure UnkData where
  value : Option Expr
  type : Option Expr
  isPattern : Bool
  excluded : List Nat
deriving DecidableEq, Repr

/-- The primitive evaluator attached to a built-in symbol. -/
inductive BuiltinFn where
  | succFn
  | maxFn
deriving DecidableEq, Repr

/-- Mutable state of a `SymbolExpression`. -/
structure SymData where
  name : Option String
  parent : Option Nat
  flags : Nat
  evalFn : Option BuiltinFn
  type : Option Expr
  value : Option Expr
  subSymbols : List (String × Nat)
  downValues : List (Expr × Expr)
  upValues : List (Expr × Expr)
deriving DecidableEq, Repr

/-- One entry of the HIR solver's `resolved[]` array (`HIRResolvedData`). -/
structure RSlot where
  errored : Bool
  type : Option Expr
  value : Option Expr
deriving DecidableEq, Repr

/-- The shared mutable store: unknown and symbol arenas, variable default
types, the constraint solver's lists, the type cache, and (for the HIR
solver) the per-register resolved slots. -/
structure St where
  unknowns : List UnkData
  symbols : List SymData
  varTypes : List Expr
  constraints : List Constraint
  errored : List Constraint
  constraintUnknowns : List Nat
  typeCache : List (Expr × Expr)
  hir : List RSlot
deriving DecidableEq, Repr

/-- Result of a stateful computation: success with the updated store,
fuel exhaustion (modelling divergence), or an `assert`/`panic` failure. -/
inductive Res (α : Type) where
  | ok (st : St) (val : α)
  | fuel
  | panic
deriving DecidableEq, Repr

def Res.bind {α β : Type} : Res α → (St → α → Res β) → Res β
  | .ok st a, f => f st a
  | .fuel, _ => .fuel
  | .panic, _ => .panic

@[simp] theorem Res.bind_ok {α β : Type} (st : St) (a : α) (f : St → α → Res β) :
    Res.bind (.ok st a) f = f st a := rfl

@[simp] theorem Res.bind_fuel {α β : Type} (f : St → α → Res β) :
    Res.bind (.fuel : Res α) f = .fuel := rfl

@[simp] theorem Res.bind_panic {α β : Type} (f : St → α → Res β) :
    Res.bind (.panic : Res α) f = .panic := rfl

/-- In-place list update, modelling a field write on an interned node. -/
def listModify {α : Type} (f : α → α) : Nat → List α → List α
  | _, [] => []
  | 0, a :: as => f a :: as
  | n + 1, a :: as => a :: listModify f n as

/-- The unknown-assignment view of a store: id ↦ its `value` field. -/
def sigma (st : St) (i : Nat) : Option Expr := (st.unknowns[i]?).bind (·.value)

def St.setUnkValue (st : St) (i : Nat) (v : Expr) : St :=
  { st with unknowns := listModify (fun d => { d with value := some v }) i st.unknowns }

/-- Insert-if-absent, modelling `Set.add` on a `Set` kept as an insertion
ordered list. -/
def addOnce (l : List Nat) (v : Nat) : List Nat :=
  if v ∈ l then l else l ++ [v]

def St.addExcluded (st : St) (i : Nat) (v : Nat) : St :=
  { st with unknowns := listModify (fun d => { d with excluded := addOnce d.excluded v }) i st.unknowns }

/-- Allocate a fresh `Unknown`; returns its id. -/
def St.allocUnk (st : St) (d : UnkData) : St × Nat :=
  ({ st with unknowns := st.unknowns ++ [d] }, st.unknowns.length)

/-- Allocate a fresh `Variable` with the given `defaultType`; returns its id. -/
def St.allocVar (st : St) (defaultType : Expr) : St × Nat :=
  ({ st with varTypes := st.varTypes ++ [defaultType] }, st.varTypes.length)

def St.getExcluded (st : St) (i : Nat) : List Nat :=
  (st.unknowns[i]?.map (·.excluded)).getD []

def St.unkValue (st : St) (i : Nat) : Option Expr := sigma st i

def St.unkType (st : St) (i : Nat) : Option Expr :=
  (st.unknowns[i]?).bind (·.type)

def St.unkIsPattern (st : St) (i : Nat) : Bool :=
  ((st.unknowns[i]?).map (·.isPattern)).getD false

/-- `unwrapUnknown` with an explicit walk bound. -/
def unwrapU (st : St) : Nat → Expr → Expr
  | 0, e => e
  | n + 1, e =>
    match e with
    | .unk i =>
      match sigma st i with
      | some v => unwrapU st n v
      | none => e
    | _ => e

/-- `unwrapUnknown` (analyse.ts): follows the `value` chain of resolved
unknowns; bounded by the arena size (see the header notes). -/
def St.unwrap (st : St) (e : Expr) : Expr := unwrapU st (st.unknowns.length + 1) e

/-- `visitExpression` (analyse.ts) restricted to collecting `Unknown` ids:
the LAMBDA case only visits the body (not the argType), and unknowns are
visited as nodes without following their `value`. -/
def scanUnks : Expr → List Nat
  | .unk i => [i]
  | .call f a _ => scanUnks f ++ scanUnks a
  | .fnType _ i o _ => scanUnks i ++ scanUnks o
  | .lam _ _ b _ => scanUnks b
  | _ => []

/-- `markExcludedVariable` (analyse.ts): adds `v` to the excluded set of
every syntactic `Unknown` of `e`. -/
def St.markExcludedVariable (st : St) (e : Expr) (v : Nat) : St :=
  (scanUnks e).foldl (fun s i => s.addExcluded i v) st

/-- `markRenamedVariable` (analyse.ts): every syntactic `Unknown` of `e`
that excludes `vOld` also gets `vNew` excluded. -/
def St.markRenamedVariable (st : St) (vOld vNew : Nat) (e : Expr) : St :=
  (scanUnks e).foldl
    (fun s i => if (s.getExcluded i).contains vOld then s.addExcluded i vNew else s) st

/-- Syntactic unknowns as seen by the `mapExpression` traversal (which,
unlike `visitExpression`, also descends into a Lambda's argType). -/
def unksIn : Expr → List Nat
  | .unk i => [i]
  | .call f a _ => unksIn f ++ unksIn a
  | .fnType _ i o _ => unksIn i ++ unksIn o
  | .lam _ t b _ => unksIn t ++ unksIn b
  | _ => []

/-- `freeQ` (analyse.ts): `some true` iff the predicate never fires during
the `mapExpression` walk, which follows resolved unknowns into their values
and applies the visitor only to leaves and unresolved unknowns. -/
def freeQF (st : St) (p : Expr → Bool) : Nat → Expr → Option Bool
  | 0, _ => none
  | n + 1, e =>
    match e with
    | .unk i =>
      match sigma st i with
      | some v => freeQF st p n v
      | none => some (!(p e))
    | .call f a _ => (freeQF st p n f).bind fun bf =>
        if bf then freeQF st p n a else some false
    | .fnType _ i o _ => (freeQF st p n i).bind fun bi =>
        if bi then freeQF st p n o else some false
    | .lam _ t b _ => (freeQF st p n t).bind fun bt =>
        if bt then freeQF st p n b else some false
    | e' => some (!(p e'))

/-- `variableFreeQ` (analyse.ts): `e` is free of variable `v`; an
unresolved Unknown that does not exclude `v` counts as an occurrence. -/
def variableFreeQF (st : St) (n : Nat) (e : Expr) (v : Nat) : Option Bool :=
  freeQF st
    (fun e' =>
      match e' with
      | .var j => j == v
      | .unk i => !((st.getExcluded i).contains v)
      | _ => false) n e

/-- The occurs check of `setUnknown`/`evaluateEqualConstraint` (analyse.ts):
`freeQ(value, expr => expr === target)`. -/
def occursCheckF (st : St) (n : Nat) (target : Nat) (value : Expr) : Option Bool :=
  freeQF st (fun e' => e' == Expr.unk target) n value

/-- `canUseEtaReduction` (analyse.ts). -/
def canUseEtaReductionF (st : St) (n : Nat) (e : Expr) : Option Bool :=
  match e with
  | .call f a _ =>
    match a with
    | .var v => variableFreeQF st n f v
    | _ => some false
  | _ => some false

/-- `countArgs` (analyse.ts): purely syntactic spine length. -/
def countArgs : Expr → Nat
  | .call f _ _ => countArgs f + 1
  | _ => 0

/-- Spine walk of `collectFnArgs` (analyse.ts): unwraps resolved unknowns at
each step; returns the head and the (argument, color) list, outermost
argument last. -/
def collectFnArgsF (st : St) : Nat → Expr → List (Expr × Nat) → Option (Expr × List (Expr × Nat))
  | 0, _, _ => none
  | n + 1, e, acc =>
    match st.unwrap e with
    | .call f a c => collectFnArgsF st n f ((a, c) :: acc)
    | e' => some (e', acc)

/-- `getFn` (analyse.ts): head of the call spine, unwrapping unknowns. -/
def getFnF (st : St) : Nat → Expr → Option Expr
  | 0, _ => none
  | n + 1, e =>
    match st.unwrap e with
    | .call f _ _ => getFnF st n f
    | e' => some e'

/-- `checkFnTypeColor` (analyse.ts). -/
def checkFnTypeColorF (st : St) : Nat → Expr → Nat → Option Bool
  | 0, _, _ => none
  | n + 1, e, color =>
    match st.unwrap e with
    | .fnType _ _ o c => if c != color then checkFnTypeColorF st n o color else some true
    | _ => some false

/-! Built-in symbols (`BuiltinSymbols` in analyse.ts), interned at fixed ids
in construction order. -/

def idBuiltin : Nat := 0
def idLevel : Nat := 1
def idSucc : Nat := 2
def idMax : Nat := 3
def idRoot : Nat := 4
def idType : Nat := 5
def idUntyped : Nat := 6
def idErrorType : Nat := 7
def idNumber : Nat := 8
def idString : Nat := 9
def idUnitType : Nat := 10
def idUnit : Nat := 11

def isLevelLit : Expr → Bool
  | .num true _ => true
  | _ => false

/-- `evaluateLevelMax` (analyse.ts): swaps a literal level to the left, then
computes `max` of two literals, or eliminates a literal `0`. -/
def evaluateLevelMax (a1 a2 : Expr) : Option Expr :=
  let p := if !isLevelLit a1 && isLevelLit a2 then (a2, a1) else (a1, a2)
  match p.1, p.2 with
  | .num true v1, .num true v2 => some (.num true (Nat.max v1 v2))
  | .num true v1, b => if v1 = 0 then some b else none
  | _, _ => none

/-- `BuiltinSymbols.makeLevelMax` (analyse.ts): the evaluated form if
available, else the residual `Level.max(a1)(a2)` call. -/
def makeLevelMax (a1 a2 : Expr) : Expr :=
  (evaluateLevelMax a1 a2).getD (.call (.call (.sym idMax) a1 0) a2 0)

/-- `BuiltinSymbols.makeLevelSucc` (analyse.ts). -/
def makeLevelSucc (level : Expr) : Expr :=
  match level with
  | .num true v => .num true (v + 1)
  | _ => .call (.sym idSucc) level 0

/-- `BuiltinSymbols.makeUniverse` (analyse.ts). -/
def makeUniverse (level : Expr) : Expr := .call (.sym idType) level 0

/-- `Type(0)`, the type given to the basic built-in type symbols. -/
def u0 : Expr := .call (.sym idType) (.num true 0) 0

def mkSym (name : String) (parent : Option Nat) (flags : Nat) (evalFn : Option BuiltinFn)
    (type : Option Expr) (subSymbols : List (String × Nat)) : SymData :=
  { name := some name, parent := parent, flags := flags, evalFn := evalFn, type := type,
    value := none, subSymbols := subSymbols, downValues := [], upValues := [] }

/-- The symbol arena after the `BuiltinSymbols` constructor ran.  The two
`void` symbols share a display name; `Map.set` keeps the first insertion
position but the second id, hence `("void", idUnit)`. -/
def builtinSymbols : List SymData :=
  [ mkSym "builtin" none 0 none none
      [("Level", idLevel), ("Type", idType), ("untyped", idUntyped),
       ("error-type", idErrorType), ("number", idNumber), ("string", idString),
       ("void", idUnit)],
    mkSym "Level" (some idBuiltin) 0 none (some u0) [("succ", idSucc), ("max", idMax)],
    mkSym "succ" (some idLevel) 0 (some .succFn)
      (some (.fnType none (.sym idLevel) (.sym idLevel) 0)) [],
    mkSym "max" (some idLevel) 0 (some .maxFn)
      (some (.fnType none (.sym idLevel) (.fnType none (.sym idLevel) (.sym idLevel) 0) 0)) [],
    mkSym "root" none 0 none none [],
    mkSym "Type" (some idBuiltin) 0 none
      (some (.fnType (some 0) (.sym idLevel)
        (.call (.sym idType) (.call (.sym idSucc) (.var 0) 0) 0) 0)) [],
    mkSym "untyped" (some idBuiltin) 0 none (some u0) [],
    mkSym "error-type" (some idBuiltin) 0 none (some u0) [],
    mkSym "number" (some idBuiltin) 0 none (some u0) [],
    mkSym "string" (some idBuiltin) 0 none (some u0) [],
    mkSym "void" (some idBuiltin) 0 none (some u0) [],
    mkSym "void" (some idBuiltin) 0 none (some u0) [] ]

/-- The store right after startup: built-in symbols, the one built-in
Variable `i : Level` used in the type of `Type`, no unknowns, no
constraints. -/
def initSt : St :=
  { unknowns := [], symbols := builtinSymbols, varTypes := [.sym idLevel],
    constraints := [], errored := [], constraintUnknowns := [], typeCache := [],
    hir := [] }

/-- `makeUnknown` (analyse.ts): allocate a fresh Unknown carrying a type. -/
def makeUnknownF (st : St) (type : Expr) (isPattern : Bool) : St × Nat :=
  st.allocUnk { value := none, type := some type, isPattern := isPattern, excluded := [] }

/-- `makeUnknownType` (analyse.ts): a fresh Unknown typed as a universe at a
fresh unknown level. -/
def makeUnknownTypeF (st : St) : St × Nat :=
  let p := makeUnknownF st (.sym idLevel) false
  makeUnknownF p.1 (makeUniverse (.unk p.2)) false

/-- `BuiltinSymbols.makeUnknownUniverse` (analyse.ts). -/
def makeUnknownUniverseF (st : St) : St × Expr :=
  let p := makeUnknownF st (.sym idLevel) false
  (p.1, makeUniverse (.unk p.2))

def St.addConstraintUnknown (st : St) (i : Nat) : St :=
  { st with constraintUnknowns := addOnce st.constraintUnknowns i }

/-- `ConstraintSolver.scanUnknowns` (analyse.ts). -/
def St.scanUnknowns (st : St) (e : Expr) : St :=
  (scanUnks e).foldl (fun s i => s.addConstraintUnknown i) st

/-- `ConstraintSolver.scanConstraintUnknonws` (analyse.ts). -/
def scanConstraintUnknowns (st : St) (con : Constraint) : St :=
  match con with
  | .equal e1 e2 => (st.scanUnknowns e1).scanUnknowns e2
  | .equalWithReplace t _ reps =>
    reps.foldl (fun s kv => s.scanUnknowns kv.2) (st.addConstraintUnknown t)
  | .fnTypeType t t1 t2 => ((st.addConstraintUnknown t).scanUnknowns t1).scanUnknowns t2
  | .typeofC t i => (st.addConstraintUnknown t).scanUnknowns (.unk i)

/-- `ConstraintSolver.add` (analyse.ts). -/
def St.addCon (st : St) (con : Constraint) : St :=
  let st' := scanConstraintUnknowns st con
  { st' with constraints := st'.constraints ++ [con] }

/-- `ConstraintSolver.addEqualConstraint` (analyse.ts). -/
def St.addEqual (st : St) (e1 e2 : Expr) : St := st.addCon (.equal e1 e2)

def St.addErrored (st : St) (con : Constraint) : St :=
  { st with errored := st.errored ++ [con] }

/-- `ConstraintSolver.containsConstraintUnknown` (analyse.ts). -/
def containsConstraintUnknownF (st : St) (e : Expr) : Bool :=
  (scanUnks e).any (fun i => st.constraintUnknowns.contains i)

/-- `ConstraintSolver.makeReplaceUnknown` (analyse.ts): fresh Unknown with
the source's exclusions, plus an `EqualWithReplace` constraint. -/
def makeReplaceUnknownF (st : St) (src : Nat) (type : Option Expr)
    (replaces : List (Nat × Expr)) : St × Nat :=
  let excl := st.getExcluded src
  let p := st.allocUnk { value := none, type := type, isPattern := false, excluded := excl }
  (p.1.addCon (.equalWithReplace p.2 src replaces), p.2)

/-- `replaceScopeVariables` (analyse.ts).  `solver` selects between the two
call modes (with a constraint solver or without).  `cache` is the
per-substitution `unknownCache`; the result carries the updated cache.
Resolved unknowns are unfolded into their values; entering a binder marks
its variable as excluded on every unknown of every replacement. -/
def substF (solver : Bool) :
    Nat → St → List (Nat × Expr) → List (Nat × Nat) → Expr → Res (Expr × List (Nat × Nat))
  | 0, _, _, _, _ => .fuel
  | n + 1, st, reps, cache, e =>
    match e with
    | .var j =>
      match List.lookup j reps with
      | some rep => .ok st (rep, cache)
      | none => .ok st (e, cache)
    | .unk i =>
      match sigma st i with
      | some v => substF solver n st reps cache v
      | none =>
        match List.lookup i cache with
        | some j => .ok st (.unk j, cache)
        | none =>
          let filtered := reps.filter (fun kv => !((st.getExcluded i).contains kv.1))
          if filtered.isEmpty then .ok st (e, cache)
          else
            if solver then
              match st.unkType i with
              | some t =>
                (substF solver n st reps cache t).bind fun st1 p =>
                  let q := makeReplaceUnknownF st1 i (some p.1) filtered
                  .ok q.1 (.unk q.2, (i, q.2) :: p.2)
              | none =>
                let q := makeReplaceUnknownF st i none filtered
                .ok q.1 (.unk q.2, (i, q.2) :: cache)
            else
              let p := st.allocUnk
                { value := none, type := none, isPattern := st.unkIsPattern i,
                  excluded := st.getExcluded i }
              .ok p.1 (.unk p.2, (i, p.2) :: cache)
    | .call f a c =>
      (substF solver n st reps cache f).bind fun st1 pf =>
      (substF solver n st1 reps pf.2 a).bind fun st2 pa =>
      .ok st2 (.call pf.1 pa.1 c, pa.2)
    | .fnType arg i o c =>
      (substF solver n st reps cache i).bind fun st1 pi =>
      let st1' := match arg with
        | some v => reps.foldl (fun s kv => s.markExcludedVariable kv.2 v) st1
        | none => st1
      (substF solver n st1' reps pi.2 o).bind fun st2 po =>
      .ok st2 (.fnType arg pi.1 po.1 c, po.2)
    | .lam arg t b c =>
      (substF solver n st reps cache t).bind fun st1 pt =>
      let st1' := match arg with
        | some v => reps.foldl (fun s kv => s.markExcludedVariable kv.2 v) st1
        | none => st1
      (substF solver n st1' reps pt.2 b).bind fun st2 pb =>
      .ok st2 (.lam arg pt.1 pb.1 c, pb.2)
    | e' => .ok st (e', cache)

/-- `replaceScopeVariables` entry point: fresh `unknownCache`, expression
result only. -/
def substTopF (solver : Bool) (n : Nat) (st : St) (reps : List (Nat × Expr)) (e : Expr) :
    Res Expr :=
  (substF solver n st reps [] e).bind fun st1 p => .ok st1 p.1

/-- `replaceScopeVariable` (analyse.ts): single-variable substitution. -/
def replaceScopeVariableF (solver : Bool) (n : Nat) (st : St) (v : Nat) (rep : Expr) (e : Expr) :
    Res Expr :=
  substTopF solver n st [(v, rep)] e

/-- `sameQ` (analyse.ts): structural equality modulo α-renaming, unwrapping
resolved unknowns.  Binder renaming on the right side is performed with the
solver-less substitution, whose fresh-unknown allocations make this
stateful.  Call/FnType/Lambda colors are not compared, and lambda argTypes
are not compared, exactly as in the source. -/
def sameQF : Nat → St → Expr → Expr → Res Bool
  | 0, _, _, _ => .fuel
  | n + 1, st, e1, e2 =>
    let e1' := st.unwrap e1
    let e2' := st.unwrap e2
    match e1' with
    | .sym i => .ok st (e2' == .sym i)
    | .var i => .ok st (e2' == .var i)
    | .unk i => .ok st (e2' == .unk i)
    | .num l v =>
      .ok st (match e2' with | .num l2 v2 => l == l2 && v == v2 | _ => false)
    | .str s =>
      .ok st (match e2' with | .str s2 => s == s2 | _ => false)
    | .call f1 a1 _ =>
      match e2' with
      | .call f2 a2 _ =>
        (sameQF n st f1 f2).bind fun st1 bf =>
          if bf then sameQF n st1 a1 a2 else .ok st1 false
      | _ => .ok st false
    | .fnType arg1 i1 o1 _ =>
      match e2' with
      | .fnType arg2 i2 o2 _ =>
        (match arg1, arg2 with
          | some v1, some v2 =>
            if v1 ≠ v2 then substTopF false n st [(v2, .var v1)] o2 else .ok st o2
          | _, _ => .ok st o2).bind fun st1 o2' =>
        (sameQF n st1 i1 i2).bind fun st2 bi =>
          if bi then sameQF n st2 o1 o2' else .ok st2 false
      | _ => .ok st false
    | .lam arg1 _ b1 _ =>
      match e2' with
      | .lam arg2 _ b2 _ =>
        (match arg1, arg2 with
          | some v1, some v2 =>
            if v1 ≠ v2 then substTopF false n st [(v2, .var v1)] b2 else .ok st b2
          | _, _ => .ok st b2).bind fun st1 b2' =>
        sameQF n st1 b1 b2'
      | _ => .ok st false

/-- `matchPattern` (analyse.ts): first-order matching; `reps` accumulates
Variable bindings in insertion order; an `Unknown` in the pattern aborts. -/
def matchPatternF : Nat → St → List (Nat × Expr) → Expr → Expr → Res (Option (List (Nat × Expr)))
  | 0, _, _, _, _ => .fuel
  | n + 1, st, reps, pat, e =>
    match pat with
    | .sym i => .ok st (if e == .sym i then some reps else none)
    | .str s =>
      (sameQF n st (.str s) e).bind fun st1 b => .ok st1 (if b then some reps else none)
    | .num l v =>
      (sameQF n st (.num l v) e).bind fun st1 b => .ok st1 (if b then some reps else none)
    | .lam arg t b c =>
      (sameQF n st (.lam arg t b c) e).bind fun st1 bb => .ok st1 (if bb then some reps else none)
    | .fnType arg i o c =>
      (sameQF n st (.fnType arg i o c) e).bind fun st1 bb => .ok st1 (if bb then some reps else none)
    | .var j =>
      match List.lookup j reps with
      | some old =>
        (sameQF n st old e).bind fun st1 b => .ok st1 (if b then some reps else none)
      | none => .ok st (some (reps ++ [(j, e)]))
    | .call pf pa _ =>
      match e with
      | .call ef ea _ =>
        if countArgs pat != countArgs e then .ok st none
        else
          (matchPatternF n st reps pf ef).bind fun st1 r =>
            match r with
            | some reps' => matchPatternF n st1 reps' pa ea
            | none => .ok st1 none
      | _ => .ok st none
    | .unk _ => .ok st none

/-! Type solver (`TypeSolver` / `ConstraintSolver.getType` in analyse.ts). -/

/-- `Map.set` semantics on an association list: replace in place, else
append. -/
def setAssoc (l : List (Expr × Expr)) (k : Expr) (v : Expr) : List (Expr × Expr) :=
  if (List.lookup k l).isSome then
    l.map (fun kv => if kv.1 == k then (k, v) else kv)
  else l ++ [(k, v)]

def St.cacheSet (st : St) (e t : Expr) : St :=
  { st with typeCache := setAssoc st.typeCache e t }

/-- `getCachedType` (analyse.ts): cache hit is unwrapped and refreshed. -/
def getCachedTypeF (st : St) (e : Expr) : St × Option Expr :=
  match List.lookup e st.typeCache with
  | some t =>
    let t2 := st.unwrap t
    if t ≠ t2 then (st.cacheSet e t2, some t2) else (st, some t2)
  | none => (st, none)

def St.symUpValues (st : St) (i : Nat) : List (Expr × Expr) :=
  ((st.symbols[i]?).map (·.upValues)).getD []

def St.symDownValues (st : St) (i : Nat) : List (Expr × Expr) :=
  ((st.symbols[i]?).map (·.downValues)).getD []

/-- `TypeSolver._getType`/`run` (analyse.ts): computes the type of an
expression, posting `Typeof`/`FnTypeType` constraints for unknowns and
caching composite results. -/
def getTypeSolverF : Nat → St → Expr → Res Expr
  | 0, _, _ => .fuel
  | n + 1, st, e =>
    let c := getCachedTypeF st e
    match c.2 with
    | some t => .ok c.1 t
    | none =>
      let st := c.1
      match e with
      | .str _ => .ok st (.sym idString)
      | .num l _ => .ok st (if l then .sym idLevel else .sym idNumber)
      | .unk i =>
        match sigma st i with
        | some v => getTypeSolverF n st v
        | none =>
          match st.unkType i with
          | some t => .ok st t
          | none =>
            let p := st.allocUnk
              { value := none, type := none, isPattern := false, excluded := st.getExcluded i }
            .ok (p.1.addCon (.typeofC p.2 i)) (.unk p.2)
      | .var j =>
        match st.varTypes[j]? with
        | some t => .ok st t
        | none => .panic
      | .sym i =>
        match st.symbols[i]? with
        | some d => .ok st (d.type.getD (.sym idUntyped))
        | none => .panic
      | .fnType _ i o _ =>
        (getTypeSolverF n st i).bind fun st1 ti =>
        (getTypeSolverF n st1 o).bind fun st2 tOut =>
        let p := st2.allocUnk { value := none, type := none, isPattern := false, excluded := [] }
        let st3 := p.1.addCon (.fnTypeType p.2 ti tOut)
        .ok (st3.cacheSet e (.unk p.2)) (.unk p.2)
      | .call f a _ =>
        (getTypeSolverF n st f).bind fun st1 tf =>
        match st1.unwrap tf with
        | .fnType arg _ o _ =>
          (match arg with
            | some v => replaceScopeVariableF true n st1 v a o
            | none => .ok st1 o).bind fun st2 t =>
          .ok (st2.cacheSet e t) t
        | _ => .ok (st1.cacheSet e (.sym idErrorType)) (.sym idErrorType)
      | .lam arg t b c =>
        (getTypeSolverF n st b).bind fun st1 tb =>
        let ty := Expr.fnType arg t tb c
        .ok (st1.cacheSet e ty) ty

/-- `ConstraintSolver.getType` (analyse.ts): returns a raw cache hit, else
runs a type solver over the shared cache. -/
def getTypeTopF (n : Nat) (st : St) (e : Expr) : Res Expr :=
  match List.lookup e st.typeCache with
  | some c => .ok st c
  | none => getTypeSolverF n st e

/-! Evaluator (`Evaluator` in analyse.ts).  The `ownValue`, `downValue` and
`expandLambda` toggles default to `true` and are never assigned anywhere in
the source, so they are hardwired here; the source also only consults
`ownValue`. -/

/-- `collectRules`'s per-argument upValue lookup (analyse.ts). -/
def collectUpRules (st : St) (n : Nat) : List Expr → Option (List (Expr × Expr))
  | [] => some []
  | a :: rest =>
    (show Option (List (Expr × Expr)) from
      match a with
      | .sym i => some (st.symUpValues i)
      | .call _ _ _ =>
        (getFnF st n a).map fun fn2 =>
          match fn2 with
          | .sym j => st.symUpValues j
          | _ => []
      | _ => some []).bind fun rs =>
    (collectUpRules st n rest).map fun rest' => rs ++ rest'

/-- `collectRules` (analyse.ts): upValues of the argument heads in argument
order, then the head symbol's downValues. -/
def collectRulesF (st : St) (n : Nat) (e : Expr) : Option (List (Expr × Expr)) :=
  (collectFnArgsF st n e []).bind fun p =>
    (collectUpRules st n (p.2.map (·.1))).map fun ups =>
      ups ++ (match p.1 with | .sym i => st.symDownValues i | _ => [])

/-- The built-in primitive evaluator attached to a symbol (`succ`/`max` in
`BuiltinSymbols`), applied to the spine arguments. -/
def applyBuiltinFn (fn : Option BuiltinFn) (args : List Expr) : Option Expr :=
  match fn with
  | some .succFn =>
    match args.head? with
    | some (.num true v) => some (.num true (v + 1))
    | _ => none
  | some .maxFn =>
    match args with
    | a1 :: a2 :: _ => evaluateLevelMax a1 a2
    | _ => none
  | none => none

mutual

/-- `Evaluator._evaluate` (analyse.ts): δ-unfolds symbol values, β-reduces
when the evaluated head is a lambda (a binder-less lambda yields its body
unevaluated), η-reduces lambda bodies, follows resolved unknowns, and hands
residual calls to `postCallF`.  Lambda argTypes are not evaluated. -/
def evalF : Nat → St → Expr → Res Expr
  | 0, _, _ => .fuel
  | n + 1, st, e =>
    match e with
    | .var _ => .ok st e
    | .num _ _ => .ok st e
    | .str _ => .ok st e
    | .sym i =>
      match st.symbols[i]? with
      | some d =>
        match d.value with
        | some v => evalF n st v
        | none => .ok st e
      | none => .panic
    | .unk i =>
      match sigma st i with
      | some v => evalF n st v
      | none => .ok st e
    | .call f a c =>
      (evalF n st f).bind fun st1 ef =>
      (evalF n st1 a).bind fun st2 ea =>
      match ef with
      | .lam (some x) _ b _ =>
        (replaceScopeVariableF true n st2 x ea b).bind fun st3 r => evalF n st3 r
      | .lam none _ b _ => .ok st2 b
      | _ => postCallF n st2 (.call ef ea c)
    | .fnType arg i o c =>
      (evalF n st i).bind fun st1 ei =>
      (evalF n st1 o).bind fun st2 eo =>
      .ok st2 (.fnType arg ei eo c)
    | .lam arg t b c =>
      (evalF n st b).bind fun st1 eb =>
      match arg, eb with
      | some x, .call bf ba _ =>
        match canUseEtaReductionF st1 n eb with
        | none => .fuel
        | some true => if ba == .var x then .ok st1 bf else .ok st1 (.lam arg t eb c)
        | some false => .ok st1 (.lam arg t eb c)
      | _, _ => .ok st1 (.lam arg t eb c)

/-- `Evaluator._postCall` (analyse.ts): built-in evaluator first, then the
collected rewrite rules in order; the first matching rule's rhs is
substituted and evaluated. -/
def postCallF : Nat → St → Expr → Res Expr
  | 0, _, _ => .fuel
  | n + 1, st, e =>
    match collectFnArgsF st n e [] with
    | none => .fuel
    | some (fn, argsC) =>
      match fn with
      | .sym s =>
        match st.symbols[s]? with
        | none => .panic
        | some d =>
          match applyBuiltinFn d.evalFn (argsC.map (·.1)) with
          | some v => .ok st v
          | none =>
            match collectRulesF st n e with
            | none => .fuel
            | some rules => tryRulesF n rules st e
      | _ => .ok st e

/-- The rule loop inside `Evaluator._postCall` (analyse.ts).  The fuel is
decremented per rule tried, keeping the recursion structural. -/
def tryRulesF : Nat → List (Expr × Expr) → St → Expr → Res Expr
  | 0, _, _, _ => .fuel
  | _ + 1, [], st, e => .ok st e
  | n + 1, (lhs, rhs) :: rest, st, e =>
    (matchPatternF n st [] lhs e).bind fun st1 r =>
      match r with
      | some reps => (substTopF true n st1 reps rhs).bind fun st2 r2 => evalF n st2 r2
      | none => tryRulesF n rest st1 e

end

/-- `Evaluator.evaluate` (analyse.ts). -/
def evaluateF (n : Nat) (st : St) (e : Expr) : Res Expr := evalF n st e

/-! Constraint solver (`ConstraintSolver` in analyse.ts). -/

/-- `ConstraintSolver.makeLambda` (analyse.ts): η-contraction shortcut, else
wrap `body` in a lambda, renaming `arg` to a fresh variable when it occurs. -/
def makeLambdaFallback (n : Nat) (st : St) (body : Expr) (arg : Nat) (argType : Expr)
    (color : Nat) : Res Expr :=
  match variableFreeQF st n body arg with
  | none => .fuel
  | some freeOf =>
    if freeOf then .ok st (.lam none argType body color)
    else
      let p := st.allocVar argType
      (replaceScopeVariableF true n p.1 arg (.var p.2) body).bind fun st1 b' =>
      .ok st1 (.lam (some p.2) argType b' color)

def makeLambdaF (n : Nat) (st : St) (body : Expr) (arg : Nat) (argType : Expr)
    (color : Nat) : Res Expr :=
  match body with
  | .call bf ba bc =>
    if bc == color && ba == Expr.var arg then
      match variableFreeQF st n bf arg with
      | none => .fuel
      | some true => .ok st bf
      | some false => makeLambdaFallback n st body arg argType color
    else makeLambdaFallback n st body arg argType color
  | _ => makeLambdaFallback n st body arg argType color

/-- The shared tail of the Unknown branch of `evaluateEqualConstraint`
(analyse.ts lines 1189-1202): occurs check, optional type constraint, then
the value write (the target is asserted unset by the caller). -/
def assignUnknownF (n : Nat) (st : St) (target : Nat) (value : Expr) : Res Bool :=
  match occursCheckF st n target value with
  | none => .fuel
  | some false => .ok st false
  | some true =>
    (show Res Unit from
      match st.unkType target with
      | some t => (getTypeTopF n st value).bind fun st1 tv => .ok (st1.addEqual t tv) ()
      | none => .ok st ()).bind fun st2 _ =>
    .ok (st2.setUnkValue target value) true

def isUnkE : Expr → Bool
  | .unk _ => true
  | _ => false

def isCallE : Expr → Bool
  | .call _ _ _ => true
  | _ => false

/-- The Call-vs-Call portion of `evaluateEqualConstraint` (analyse.ts lines
1215-1243): decomposition for rigid Symbol heads and for identical Variable
heads.  Returns `none` when this portion does not apply (fall through to the
η case). -/
def equalCallCallF (n : Nat) (st : St) (e1 e2 : Expr) : Res (Option Bool) :=
  match collectFnArgsF st n e1 [], collectFnArgsF st n e2 [] with
  | some (fn1, args1), some (fn2, args2) =>
    match fn1, fn2 with
    | .sym s1, .sym s2 =>
      if args1.length == args2.length && s1 == s2 then
        match st.symbols[s1]? with
        | none => .panic
        | some d =>
          if d.flags &&& (4 + 2) == 0 then
            let st1 := (args1.zip args2).foldl (fun s p => s.addEqual p.1.1 p.2.1) st
            if s1 ≠ idType then
              (getTypeTopF n st1 e1).bind fun st2 t1 =>
              (getTypeTopF n st2 e2).bind fun st3 t2 =>
              .ok (st3.addEqual t1 t2) (some true)
            else .ok st1 (some true)
          else .ok st none
      else .ok st none
    | .var v1, .var v2 =>
      if v1 ≠ v2 then .ok (st.addErrored (.equal e1 e2)) (some true)
      else if args1.length > args2.length then .panic
      else
        let st1 := (args1.zip args2).foldl (fun s p => s.addEqual p.1.1 p.2.1) st
        (getTypeTopF n st1 e1).bind fun st2 t1 =>
        (getTypeTopF n st2 e2).bind fun st3 t2 =>
        .ok (st3.addEqual t1 t2) (some true)
    | _, _ => .ok st none
  | _, _ => .fuel

/-- The FnType-vs-FnType and Lambda-vs-Lambda decomposition of
`evaluateEqualConstraint` (analyse.ts lines 1257-1302), shared shape:
equate the annotation parts, introduce one fresh shared binder, α-rename
both bodies onto it (with `markRenamedVariable` propagating exclusions) and
equate the renamed bodies. -/
def equalBinderF (n : Nat) (st : St) (arg1 : Option Nat) (ann1 : Expr) (body1 : Expr)
    (arg2 : Option Nat) (ann2 : Expr) (body2 : Expr) : Res Bool :=
  let st := st.addEqual ann1 ann2
  let p : St × Option Nat :=
    match arg1 with
    | some _ => let q := st.allocVar ann1; (q.1, some q.2)
    | none =>
      match arg2 with
      | some _ => let q := st.allocVar ann2; (q.1, some q.2)
      | none => (st, none)
  let st := p.1
  (show Res Expr from
    match arg1, p.2 with
    | some v1, some newArg =>
      let st' := st.markRenamedVariable v1 newArg body1
      replaceScopeVariableF true n st' v1 (.var newArg) body1
    | some _, none => .panic
    | none, _ => .ok st body1).bind fun st1 b1 =>
  (show Res Expr from
    match arg2, p.2 with
    | some v2, some newArg =>
      let st' := st1.markRenamedVariable v2 newArg body2
      replaceScopeVariableF true n st' v2 (.var newArg) body2
    | some _, none => .panic
    | none, _ => .ok st1 body2).bind fun st2 b2 =>
  .ok (st2.addEqual b1 b2) true

/-- The η/binder tail of `evaluateEqualConstraint` (analyse.ts lines
1251-1302): with a usable η-redex on the left, equate its function part with
`makeLambda` of the other side; otherwise decompose FnType-vs-FnType or
Lambda-vs-Lambda; otherwise fail. -/
def equalEtaTailF (n : Nat) (st : St) (a b : Expr) (etaOk : Bool) : Res Bool :=
  if etaOk then
    match a with
    | .call f1 a1 c1 =>
      match a1 with
      | .var v =>
        (getTypeTopF n st (.var v)).bind fun st4 tv =>
        (makeLambdaF n st4 b v tv c1).bind fun st5 lam' =>
        .ok (st5.addEqual f1 lam') true
      | _ => .panic
    | _ => .panic
  else
    match a, b with
    | .fnType arg1 i1 o1 _, .fnType arg2 i2 o2 _ => equalBinderF n st arg1 i1 o1 arg2 i2 o2
    | .lam arg1 t1 b1 _, .lam arg2 t2 b2 _ => equalBinderF n st arg1 t1 b1 arg2 t2 b2
    | _, _ => .ok st false

/-- The non-primitive portion of `evaluateEqualConstraint` (analyse.ts
lines 1210-1302), after a call has been swapped to the left: Call-vs-Call
decomposition, then the η cases (swapping again only when the η-check on
the second call succeeds, as in the source), then the binder cases. -/
def equalRestCoreF (n : Nat) (st : St) (e1 e2 : Expr) : Res Bool :=
  (show Res (Option Bool) from
    if isCallE e1 && isCallE e2 then equalCallCallF n st e1 e2 else .ok st none).bind
    fun st1 cc =>
  match cc with
  | some b => .ok st1 b
  | none =>
    (show Res Bool from
      if isCallE e1 then
        match canUseEtaReductionF st1 n e1 with
        | none => .fuel
        | some b => .ok st1 b
      else .ok st1 false).bind fun st2 eta1 =>
    if !eta1 && isCallE e2 then
      (show Res Bool from
        match canUseEtaReductionF st2 n e2 with
        | none => .fuel
        | some b => .ok st2 b).bind fun st3 eta2 =>
      if eta2 then equalEtaTailF n st3 e2 e1 true
      else equalEtaTailF n st3 e1 e2 false
    else equalEtaTailF n st2 e1 e2 eta1

def equalRestF (n : Nat) (st : St) (e1 e2 : Expr) : Res Bool :=
  if !isCallE e1 && isCallE e2 then equalRestCoreF n st e2 e1
  else equalRestCoreF n st e1 e2

/-- The Unknown branch of `evaluateEqualConstraint` (analyse.ts lines
1176-1202): the left side is an unset Unknown. -/
def equalUnknownF (n : Nat) (st : St) (i : Nat) (other : Expr) : Res Bool :=
  match other with
  | .unk j =>
    if (sigma st j).isSome then .panic
    else if i == j then .ok st true
    else if st.unkIsPattern i && !(st.unkIsPattern j) then assignUnknownF n st j (.unk i)
    else assignUnknownF n st i (.unk j)
  | _ => assignUnknownF n st i other

def equalMainF (n : Nat) (st : St) (e1 e2 : Expr) : Res Bool :=
  match e1 with
  | .unk i =>
    if (sigma st i).isSome then .panic
    else equalUnknownF n st i e2
  | _ =>
    match e1, e2 with
    | .num true v1, .num true v2 =>
      if v1 == v2 then .ok st true else equalRestF n st e1 e2
    | .str s1, .str s2 =>
      if s1 == s2 then .ok st true else equalRestF n st e1 e2
    | _, _ => equalRestF n st e1 e2

/-- `ConstraintSolver.evaluateEqualConstraint` (analyse.ts): an unset
Unknown is swapped to the left, then dispatched. -/
def evaluateEqualConstraintF (n : Nat) (st : St) (e1 e2 : Expr) : Res Bool :=
  if !isUnkE e1 && isUnkE e2 then equalMainF n st e2 e1
  else equalMainF n st e1 e2

/-- `ConstraintSolver.setUnknown` (analyse.ts): the guarded write point —
occurs check; optional type-compatibility constraint; write the value if
unset, else post an `Equal` against the existing value. -/
def setUnknownF (n : Nat) (st : St) (target : Nat) (value : Expr) : Res Bool :=
  match occursCheckF st n target value with
  | none => .fuel
  | some false => .ok st false
  | some true =>
    (show Res Unit from
      match st.unkType target with
      | some t => (getTypeTopF n st value).bind fun st1 tv => .ok (st1.addEqual t tv) ()
      | none => .ok st ()).bind fun st2 _ =>
    match sigma st2 target with
    | none => .ok (st2.setUnkValue target value) true
    | some old => .ok (st2.addEqual old value) true

/-- `ConstraintSolver.evaluateFnTypeType` (analyse.ts). -/
def evaluateFnTypeTypeF (e1 e2 : Expr) : Option Expr :=
  match e1, e2 with
  | .call f1 a1 _, .call f2 a2 _ =>
    if f1 == Expr.sym idType && f2 == Expr.sym idType then
      some (.call (.sym idType) (makeLevelMax a1 a2) 0)
    else none
  | _, _ => none

/-- `ConstraintSolver.evaluateConstraint` (analyse.ts): returns whether the
constraint made progress; a constraint that did not is re-queued. -/
def evaluateConstraintF (n : Nat) (st : St) (con : Constraint) : Res Bool :=
  match con with
  | .equal e1 e2 =>
    (evalF n st e1).bind fun st1 ev1 =>
    (evalF n st1 e2).bind fun st2 ev2 =>
    let changed := ev1 != e1 || ev2 != e2
    (evaluateEqualConstraintF n st2 ev1 ev2).bind fun st3 r =>
    if r then .ok st3 true
    else
      (sameQF n st3 ev1 ev2).bind fun st4 sq =>
      if sq then .ok st4 true
      else
        if changed then .ok (st4.addEqual ev1 ev2) true
        else .ok (st4.addCon con) false
  | .typeofC target i =>
    match sigma st i with
    | some _ =>
      (getTypeTopF n st (.unk i)).bind fun st1 t =>
      (setUnknownF n st1 target t).bind fun st2 b =>
      if b then .ok st2 true else .ok (st2.addCon con) false
    | none => .ok (st.addCon con) false
  | .fnTypeType target t1 t2 =>
    (evalF n st t1).bind fun st1 ev1 =>
    (evalF n st1 t2).bind fun st2 ev2 =>
    let changed := ev1 != t1 || ev2 != t2
    match evaluateFnTypeTypeF ev1 ev2 with
    | some ty =>
      (setUnknownF n st2 target ty).bind fun st3 b =>
      .ok (if b then st3 else st3.addErrored con) true
    | none =>
      let con' := if changed then Constraint.fnTypeType target ev1 ev2 else con
      .ok (st2.addCon con') changed
  | .equalWithReplace target i reps =>
    match sigma st i with
    | some v =>
      (substTopF true n st reps v).bind fun st1 r =>
      (setUnknownF n st1 target r).bind fun st2 b =>
      .ok (if b then st2 else st2.addErrored con) true
    | none => .ok (st.addCon con) false

/-- One `for (const con of cons)` sweep of `ConstraintSolver.evaluate`
(analyse.ts), accumulating whether any constraint made progress. -/
def passF (n : Nat) : List Constraint → St → Bool → Res Bool
  | [], st, acc => .ok st acc
  | con :: rest, st, acc =>
    (evaluateConstraintF n st con).bind fun st1 b =>
    passF n rest st1 (acc || b)

/-- One full pass of `ConstraintSolver.evaluate` (analyse.ts): snapshot the
queue, clear it and the unknown set, and sweep the snapshot. -/
def snapshotPassF (n : Nat) (st : St) : Res Bool :=
  passF n st.constraints { st with constraints := [], constraintUnknowns := [] } false

/-- `ConstraintSolver.evaluate` (analyse.ts): repeat full passes while a
pass made progress.  `ret` records whether any pass progressed. -/
def solverEvaluateF : Nat → St → Bool → Res Bool
  | 0, _, _ => .fuel
  | n + 1, st, ret =>
    (snapshotPassF n st).bind fun st2 prog =>
    if prog then solverEvaluateF n st2 true else .ok st2 ret

def csolverEvaluateF (n : Nat) (st : St) : Res Bool := solverEvaluateF n st false

/-! HIR solver (`HIRSolver` in analyse.ts, registers from irgen.ts).
Register operands are indices into the register array; the `resolved[]`
array lives in `St.hir`.  The solver's `root` symbol is the built-in
`root` symbol. -/

/-- `HIRData` (irgen.ts): the tagged register payloads.  Display names of
variables are dropped; the unused `type` field of `HIRExpression` is kept. -/
inductive HIRData where
  | root
  | exprH (e : Expr) (type : Option Expr)
  | number (value : Nat)
  | lambdaH (arg : Option Nat) (body : Nat) (color : Nat) (argType : Option Nat)
  | callH (fn : Nat) (arg : Nat) (color : Nat) (isPattern : Bool)
  | fnTypeH (inputType : Nat) (arg : Option Nat) (outputType : Nat) (color : Nat)
  | memberAccess (lhs : Nat) (name : String)
  | symbolH (name : Option String) (parent : Option Nat) (flags : Nat)
  | symbolType (symbol : Nat) (type : Nat)
  | symbolAssign (symbol : Nat) (value : Nat)
  | symbolRule (symbol : Nat) (lhs : Nat) (rhs : Nat) (isUpValue : Bool)
  | unknownH (type : Option Nat)
  | variableH (type : Option Nat)
deriving DecidableEq, Repr

/-- `PollResult` (analyse.ts). -/
inductive PollR where
  | unchanged
  | changed
  | done
deriving DecidableEq, Repr

/-- The captured mutable locals of the per-register poll closures:
`tmpInsertedFn` for Call, `args`/`bodyType` for Lambda,
`hasTypeConstraint` for SymbolRule. -/
inductive ActSt where
  | plain
  | callA (tmpInsertedFn : Option Expr)
  | lambdaA (args : List (Option Nat × Expr × Nat)) (bodyType : Option Expr)
  | ruleA (hasTypeConstraint : Bool)
deriving DecidableEq, Repr

def St.slotValue (st : St) (i : Nat) : Option Expr := (st.hir[i]?).bind (·.value)

def St.slotType (st : St) (i : Nat) : Option Expr := (st.hir[i]?).bind (·.type)

def St.setSlotValue (st : St) (i : Nat) (v : Expr) : St :=
  { st with hir := listModify (fun s => { s with value := some v }) i st.hir }

def St.setSlotType (st : St) (i : Nat) (t : Expr) : St :=
  { st with hir := listModify (fun s => { s with type := some t }) i st.hir }

def setAssocS (l : List (String × Nat)) (k : String) (v : Nat) : List (String × Nat) :=
  if (List.lookup k l).isSome then
    l.map (fun kv => if kv.1 == k then (k, v) else kv)
  else l ++ [(k, v)]

/-- `setParent` (analyse.ts): register a named child in its parent's
`subSymbols` map. -/
def St.setParentF (st : St) (child : Nat) : St :=
  match st.symbols[child]? with
  | some d =>
    match d.parent, d.name with
    | some p, some nm =>
      let f := fun pd => { pd with subSymbols := setAssocS pd.subSymbols nm child }
      { st with symbols := listModify f p st.symbols }
    | _, _ => st
  | none => st

/-- Allocate a fresh user Symbol; returns its id. -/
def St.allocSym (st : St) (d : SymData) : St × Nat :=
  ({ st with symbols := st.symbols ++ [d] }, st.symbols.length)

/-- The color-coercion loop inside `pollCallAction` (analyse.ts lines
1500-1505): while the (raw) function type is a FnType of the wrong color,
apply the function to a fresh Unknown of the input type. -/
def pollCallLoopF : Nat → St → Expr → Expr → Nat → Bool → Res Expr
  | 0, _, _, _, _, _ => .fuel
  | n + 1, st, fnE, ftE, color, isPat =>
    match ftE with
    | .fnType _ it _ fc =>
      if fc ≠ color then
        let p := makeUnknownF st it isPat
        let fnE' := Expr.call fnE (.unk p.2) fc
        (getTypeTopF n p.1 fnE').bind fun st1 ft' =>
        pollCallLoopF n st1 fnE' ft' color isPat
      else .ok st fnE
    | _ => .ok st fnE

/-- The second phase of `pollCallAction` (analyse.ts lines 1509-1521). -/
def pollCallFinishF (n : Nat) (st : St) (idx : Nat) (argReg : Nat) (color : Nat)
    (tmpFn : Expr) (retSoFar : PollR) : Res (PollR × ActSt) :=
  (getTypeTopF n st tmpFn).bind fun st1 ft0 =>
  match st1.unwrap ft0 with
  | .fnType _ it _ _ =>
    match st1.slotValue argReg with
    | none =>
      match st1.slotType argReg with
      | none => .ok (st1.setSlotType argReg it) (.changed, .callA (some tmpFn))
      | some _ => .ok st1 (retSoFar, .callA (some tmpFn))
    | some av =>
      (getTypeTopF n st1 av).bind fun st2 ta =>
      .ok ((st2.addEqual ta it).setSlotValue idx (.call tmpFn av color)) (.done, .callA (some tmpFn))
  | _ => .panic

/-- `pollCallAction` (analyse.ts). -/
def pollCallF (n : Nat) (st : St) (idx fnReg argReg : Nat) (color : Nat) (isPat : Bool)
    (tmp : Option Expr) : Res (PollR × ActSt) :=
  match tmp with
  | some tmpFn => pollCallFinishF n st idx argReg color tmpFn .unchanged
  | none =>
    match st.slotValue fnReg with
    | none => .ok st (.unchanged, .callA none)
    | some fv0 =>
      let fv := st.unwrap fv0
      (getTypeTopF n st fv).bind fun st1 ft0 =>
      let ft := st1.unwrap ft0
      match checkFnTypeColorF st1 n ft color with
      | none => .fuel
      | some false => .ok st1 (.unchanged, .callA none)
      | some true =>
        (pollCallLoopF n st1 fv ft color isPat).bind fun st2 tmpFn =>
        pollCallFinishF n st2 idx argReg color tmpFn .changed

/-- `pollFnTypeAction` (analyse.ts). -/
def pollFnTypeF (st : St) (idx inReg : Nat) (argReg : Option Nat) (outReg : Nat)
    (color : Nat) : Res (PollR × ActSt) :=
  match st.slotValue inReg, st.slotValue outReg with
  | some it, some ot =>
    (show Res (Option Nat) from
      match argReg with
      | some r =>
        match st.slotValue r with
        | none => .ok st none
        | some a0 =>
          match a0 with
          | .var v => .ok st (some v)
          | _ => .panic
      | none => .ok st (some 0)).bind fun st1 r =>
    match argReg, r with
    | some _, none => .ok st1 (.unchanged, .plain)
    | some _, some v =>
      .ok (st1.setSlotValue idx (.fnType (some v) it ot color)) (.done, .plain)
    | none, _ =>
      .ok (st1.setSlotValue idx (.fnType none it ot color)) (.done, .plain)
  | _, _ => .ok st (.unchanged, .plain)

/-- `pollMemberAccessAction` (analyse.ts): the non-symbol fallthrough is the
source's `panic("TODO")`. -/
def pollMemberAccessF (st : St) (idx lhsReg : Nat) (name : String) : Res (PollR × ActSt) :=
  match st.slotValue lhsReg with
  | none => .ok st (.unchanged, .plain)
  | some l0 =>
    match st.unwrap l0 with
    | .sym s =>
      match st.symbols[s]? with
      | none => .panic
      | some d =>
        match List.lookup name d.subSymbols with
        | some sub => .ok (st.setSlotValue idx (.sym sub)) (.done, .plain)
        | none => .panic
    | _ => .panic

/-- The color-unwinding loop inside `pollLambdaAction` (analyse.ts lines
1593-1610): introduce a fresh Variable per skipped color, accumulating
lambda heads. -/
def pollLambdaLoopF :
    Nat → St → Expr → Nat → List (Option Nat × Expr × Nat) →
    Res (Expr × List (Option Nat × Expr × Nat))
  | 0, _, _, _, _ => .fuel
  | n + 1, st, ty, color, acc =>
    match ty with
    | .fnType tyArg it ot tc =>
      if tc ≠ color then
        let p := st.allocVar it
        (show Res Expr from
          match tyArg with
          | some v => replaceScopeVariableF true n p.1 v (.var p.2) ot
          | none => .ok p.1 ot).bind fun st1 ot' =>
        let acc' := acc ++ [(some p.2, it, tc)]
        match ot' with
        | .fnType _ _ _ _ => pollLambdaLoopF n st1 ot' color acc'
        | _ => .panic
      else .ok st (ty, acc)
    | _ => .ok st (ty, acc)

/-- The first phase of `pollLambdaAction` (analyse.ts lines 1572-1630):
resolve the binder and annotation slots, unwind the colors of the expected
FnType, and compute the body type. -/
def pollLambdaStartF (n : Nat) (st : St) (idx : Nat) (argReg : Option Nat)
    (argTypeReg : Option Nat) (color : Nat) :
    Res (Option (List (Option Nat × Expr × Nat) × Expr)) :=
  (show Res (Option (Option Nat)) from
    match argReg with
    | some r =>
      match st.slotValue r with
      | none => .ok st none
      | some a0 =>
        match a0 with
        | .var v => .ok st (some (some v))
        | _ => .panic
    | none => .ok st (some none)).bind fun st1 argR =>
  match argR with
  | none => .ok st1 none
  | some arg0 =>
    (show Res (Option Unit) from
      match argTypeReg with
      | some r =>
        match st1.slotValue r with
        | none => .ok st1 none
        | some _ => .ok st1 (some ())
      | none => .ok st1 (some ())).bind fun st2 atR =>
    match atR with
    | none => .ok st2 none
    | some _ =>
      match (st2.slotType idx).map st2.unwrap with
      | none => .ok st2 none
      | some ty0 =>
        match ty0 with
        | .fnType _ _ _ _ =>
          match checkFnTypeColorF st2 n ty0 color with
          | none => .fuel
          | some false => .ok st2 none
          | some true =>
            (pollLambdaLoopF n st2 ty0 color []).bind fun st3 p =>
            let ty := p.1
            let acc := p.2
            match ty with
            | .fnType tyArg it ot _ =>
              match arg0, tyArg with
              | some a, _ =>
                (show Res Expr from
                  match tyArg with
                  | some v => replaceScopeVariableF true n st3 v (.var a) ot
                  | none => .ok st3 ot).bind fun st4 bodyTy =>
                .ok st4 (some (acc ++ [(some a, it, color)], bodyTy))
              | none, some v =>
                let q := st3.allocVar it
                (replaceScopeVariableF true n q.1 v (.var q.2) ot).bind fun st4 bodyTy =>
                .ok st4 (some (acc ++ [(some q.2, it, color)], bodyTy))
              | none, none =>
                .ok st3 (some (acc ++ [(none, it, color)], ot))
            | _ => .panic
        | _ => .ok st2 none

/-- The second phase of `pollLambdaAction` (analyse.ts lines 1632-1653). -/
def pollLambdaFinishF (n : Nat) (st : St) (idx bodyReg : Nat)
    (args : List (Option Nat × Expr × Nat)) (bodyType : Expr) (retSoFar : PollR) :
    Res (PollR × ActSt) :=
  match st.slotValue bodyReg with
  | none =>
    match st.slotType bodyReg with
    | none =>
      .ok (st.setSlotType bodyReg bodyType) (.changed, .lambdaA args (some bodyType))
    | some _ => .ok st (retSoFar, .lambdaA args (some bodyType))
  | some bv =>
    (getTypeTopF n st bv).bind fun st1 tb =>
    let st2 := st1.addEqual tb bodyType
    let rv := args.foldr (fun a acc => Expr.lam a.1 a.2.1 acc a.2.2) bv
    .ok (st2.setSlotValue idx rv) (.done, .lambdaA args (some bodyType))

/-- `pollLambdaAction` (analyse.ts). -/
def pollLambdaF (n : Nat) (st : St) (idx : Nat) (argReg : Option Nat) (bodyReg : Nat)
    (color : Nat) (argTypeReg : Option Nat) (args : List (Option Nat × Expr × Nat))
    (bodyType : Option Expr) : Res (PollR × ActSt) :=
  match bodyType with
  | some bt => pollLambdaFinishF n st idx bodyReg args bt .unchanged
  | none =>
    (pollLambdaStartF n st idx argReg argTypeReg color).bind fun st1 r =>
    match r with
    | none => .ok st1 (.unchanged, .lambdaA args none)
    | some p => pollLambdaFinishF n st1 idx bodyReg p.1 p.2 .changed

/-- The pattern-Unknown-to-Variable lhs conversion of `convertRule`
(analyse.ts lines 1455-1470): each unresolved pattern Unknown gets a fresh
Variable written into its `value` and is replaced by it. -/
def convertLhsF : Nat → St → Expr → Res Expr
  | 0, _, _ => .fuel
  | n + 1, st, e =>
    match e with
    | .unk i =>
      match sigma st i with
      | some v => convertLhsF n st v
      | none =>
        if st.unkIsPattern i then
          match st.unkType i with
          | none => .panic
          | some t =>
            let p := st.allocVar t
            .ok (p.1.setUnkValue i (.var p.2)) (.var p.2)
        else .ok st e
    | .call f a c =>
      (convertLhsF n st f).bind fun st1 f' =>
      (convertLhsF n st1 a).bind fun st2 a' =>
      .ok st2 (.call f' a' c)
    | .fnType arg i o c =>
      (convertLhsF n st i).bind fun st1 i' =>
      (convertLhsF n st1 o).bind fun st2 o' =>
      .ok st2 (.fnType arg i' o' c)
    | .lam arg t b c =>
      (convertLhsF n st t).bind fun st1 t' =>
      (convertLhsF n st1 b).bind fun st2 b' =>
      .ok st2 (.lam arg t' b' c)
    | e' => .ok st e'

/-- `copyExpression` (analyse.ts): the identity `mapExpression`, whose
traversal replaces resolved unknowns by (copies of) their values. -/
def copyExpressionF (st : St) : Nat → Expr → Option Expr
  | 0, _ => none
  | n + 1, e =>
    match e with
    | .unk i =>
      match sigma st i with
      | some v => copyExpressionF st n v
      | none => some e
    | .call f a c =>
      (copyExpressionF st n f).bind fun f' =>
      (copyExpressionF st n a).map fun a' => .call f' a' c
    | .fnType arg i o c =>
      (copyExpressionF st n i).bind fun i' =>
      (copyExpressionF st n o).map fun o' => .fnType arg i' o' c
    | .lam arg t b c =>
      (copyExpressionF st n t).bind fun t' =>
      (copyExpressionF st n b).map fun b' => .lam arg t' b' c
    | e' => some e'

/-- `convertRule` (analyse.ts). -/
def convertRuleF (n : Nat) (st : St) (lhs rhs : Expr) : Res (Expr × Expr) :=
  (convertLhsF n st lhs).bind fun st1 l =>
  match copyExpressionF st1 n rhs with
  | none => .fuel
  | some r => .ok st1 (l, r)

/-- `pollSymbolRuleAction` (analyse.ts). -/
def pollSymbolRuleF (n : Nat) (st : St) (idx symReg lhsReg rhsReg : Nat) (isUpValue : Bool)
    (hasTypeConstraint : Bool) : Res (PollR × ActSt) :=
  match st.slotValue lhsReg, st.slotValue symReg with
  | some lv, some symV =>
    match symV with
    | .sym s =>
      match st.slotValue rhsReg with
      | none =>
        match st.slotType rhsReg with
        | none =>
          (getTypeTopF n st lv).bind fun st1 tl =>
          .ok (st1.setSlotType rhsReg tl) (.changed, .ruleA hasTypeConstraint)
        | some _ => .ok st (.unchanged, .ruleA hasTypeConstraint)
      | some rv =>
        if !hasTypeConstraint then
          (getTypeTopF n st lv).bind fun st1 tl =>
          (getTypeTopF n st1 rv).bind fun st2 tr =>
          .ok (st2.addEqual tl tr) (.changed, .ruleA true)
        else
          if containsConstraintUnknownF st lv || containsConstraintUnknownF st rv then
            .ok st (.unchanged, .ruleA hasTypeConstraint)
          else
            (convertRuleF n st lv rv).bind fun st1 rule =>
            let f := fun d =>
              if isUpValue then { d with upValues := d.upValues ++ [rule] }
              else { d with downValues := d.downValues ++ [rule] }
            let st2 := { st1 with symbols := listModify f s st1.symbols }
            .ok (st2.setSlotValue idx (.sym idUnit)) (.done, .ruleA hasTypeConstraint)
    | _ => .panic
  | _, _ => .ok st (.unchanged, .ruleA hasTypeConstraint)

/-- `pollAction` (analyse.ts): per-register dispatch; the closure-captured
locals come in and go out through `ActSt`. -/
def pollActionF (n : Nat) (regs : List HIRData) (idx : Nat) (ast : ActSt) (st : St) :
    Res (PollR × ActSt) :=
  match regs[idx]? with
  | none => .panic
  | some reg =>
    match reg, ast with
    | .callH fnReg argReg color isPat, .callA tmp =>
      pollCallF n st idx fnReg argReg color isPat tmp
    | .fnTypeH inReg argReg outReg color, _ => pollFnTypeF st idx inReg argReg outReg color
    | .exprH e _, _ => .ok (st.setSlotValue idx e) (.done, .plain)
    | .number v, _ =>
      if st.slotType idx == some (.sym idNumber) then
        .ok (st.setSlotValue idx (.num false v)) (.done, .plain)
      else if st.slotType idx == some (.sym idLevel) then
        .ok (st.setSlotValue idx (.num true v)) (.done, .plain)
      else .ok st (.unchanged, .plain)
    | .root, _ => .ok (st.setSlotValue idx (.sym idRoot)) (.done, .plain)
    | .variableH typeReg, _ =>
      (show Res (Option Expr) from
        match typeReg with
        | some r =>
          match st.slotValue r with
          | none => .ok st none
          | some t0 =>
            (getTypeTopF n st t0).bind fun st1 tt =>
            let p := makeUnknownUniverseF st1
            .ok (p.1.addEqual tt p.2) (some t0)
        | none =>
          let p := makeUnknownTypeF st
          .ok p.1 (some (.unk p.2))).bind fun st1 ty =>
      match ty with
      | none => .ok st1 (.unchanged, .plain)
      | some t =>
        let q := st1.allocVar t
        .ok (q.1.setSlotValue idx (.var q.2)) (.done, .plain)
    | .unknownH typeReg, _ =>
      (show Res (Option Expr) from
        match typeReg with
        | some r =>
          match st.slotValue r with
          | none => .ok st none
          | some t0 =>
            (getTypeTopF n st t0).bind fun st1 tt =>
            let p := makeUnknownF st1 (.sym idLevel) false
            .ok (p.1.addEqual tt (makeUniverse (.unk p.2))) (some t0)
        | none =>
          let p := makeUnknownTypeF st
          .ok p.1 (some (.unk p.2))).bind fun st1 ty =>
      match ty with
      | none => .ok st1 (.unchanged, .plain)
      | some t =>
        let q := makeUnknownF st1 t false
        .ok (q.1.setSlotValue idx (.unk q.2)) (.done, .plain)
    | .symbolH name parentReg flags, _ =>
      (show Res (Option Nat) from
        match parentReg with
        | some r =>
          match st.slotValue r with
          | none => .ok st none
          | some p0 =>
            match p0 with
            | .sym p => .ok st (some p)
            | _ => .panic
        | none => .ok st (some idRoot)).bind fun st1 par =>
      match par with
      | none => .ok st1 (.unchanged, .plain)
      | some p =>
        (show St × Expr from
          if flags &&& (1 + 2) ≠ 0 then
            let q := makeUnknownTypeF st1
            (q.1, .unk q.2)
          else (st1, .sym idUntyped)) |> fun q =>
        let r := q.1.allocSym
          { name := name, parent := some p, flags := flags, evalFn := none,
            type := some q.2, value := none, subSymbols := [], downValues := [],
            upValues := [] }
        .ok ((r.1.setParentF r.2).setSlotValue idx (.sym r.2)) (.done, .plain)
    | .symbolAssign symReg valReg, _ =>
      match st.slotValue symReg, st.slotValue valReg with
      | some symV, some v =>
        match symV with
        | .sym s =>
          match st.symbols[s]? with
          | none => .panic
          | some d =>
            if d.flags &&& 2 == 0 then .ok st (.unchanged, .plain)
            else if d.value.isSome then .panic
            else
              let st1 :=
                { st with symbols := listModify (fun sd => { sd with value := some v }) s st.symbols }
              (show Res Unit from
                match d.type with
                | none =>
                  (getTypeTopF n st1 v).bind fun st2 tv =>
                  .ok { st2 with symbols := listModify (fun sd => { sd with type := some tv }) s st2.symbols } ()
                | some t =>
                  (getTypeTopF n st1 v).bind fun st2 tv =>
                  .ok (st2.addEqual t tv) ()).bind fun st3 _ =>
              .ok (st3.setSlotValue idx (.sym idUnit)) (.done, .plain)
        | _ => .panic
      | _, _ => .ok st (.unchanged, .plain)
    | .symbolType symReg typeReg, _ =>
      match st.slotValue symReg, st.slotValue typeReg with
      | some symV, some t =>
        match symV with
        | .sym s =>
          match st.symbols[s]? with
          | none => .panic
          | some d =>
            if d.flags &&& 1 == 0 then .ok st (.unchanged, .plain)
            else
              (getTypeTopF n st t).bind fun st1 tt =>
              let p := makeUnknownUniverseF st1
              let st2 := p.1.addEqual tt p.2
              (show St from
                match d.type with
                | none =>
                  { st2 with symbols := listModify (fun sd => { sd with type := some t }) s st2.symbols }
                | some t0 => st2.addEqual t0 t) |> fun st3 =>
              .ok (st3.setSlotValue idx (.sym idUnit)) (.done, .plain)
        | _ => .panic
      | _, _ => .ok st (.unchanged, .plain)
    | .symbolRule symReg lhsReg rhsReg isUp, .ruleA hasTC =>
      pollSymbolRuleF n st idx symReg lhsReg rhsReg isUp hasTC
    | .memberAccess lhsReg name, _ => pollMemberAccessF st idx lhsReg name
    | .lambdaH argReg bodyReg color argTypeReg, .lambdaA args bodyTy =>
      pollLambdaF n st idx argReg bodyReg color argTypeReg args bodyTy
    | .callH fnReg argReg color isPat, _ => pollCallF n st idx fnReg argReg color isPat none
    | .lambdaH argReg bodyReg color argTypeReg, _ =>
      pollLambdaF n st idx argReg bodyReg color argTypeReg [] none
    | .symbolRule symReg lhsReg rhsReg isUp, _ =>
      pollSymbolRuleF n st idx symReg lhsReg rhsReg isUp false

/-- The action sweep of `HIRSolver.iterate` (analyse.ts lines 1826-1847):
run every pending action once; `DONE` actions are removed (their slot must
hold a value), others are retained with their updated closure state. -/
def hirSweepF (n : Nat) (regs : List HIRData) :
    List (Nat × ActSt) → St → Bool → List (Nat × ActSt) → Res (Bool × List (Nat × ActSt))
  | [], st, changed, acc => .ok st (changed, acc)
  | (i, a) :: rest, st, changed, acc =>
    (pollActionF n regs i a st).bind fun st1 r =>
    match r.1 with
    | .unchanged => hirSweepF n regs rest st1 changed (acc ++ [(i, r.2)])
    | .changed => hirSweepF n regs rest st1 true (acc ++ [(i, r.2)])
    | .done =>
      match st1.slotValue i with
      | none => .panic
      | some _ => hirSweepF n regs rest st1 true acc

/-- `HIRSolver.iterate` (analyse.ts): one action sweep followed by one
constraint-solver run. -/
def hirIterateF (n : Nat) (regs : List HIRData) (acts : List (Nat × ActSt)) (st : St) :
    Res (Bool × List (Nat × ActSt)) :=
  (hirSweepF n regs acts st false []).bind fun st1 p =>
  (csolverEvaluateF n st1).bind fun st2 solverChanged =>
  .ok st2 (solverChanged || p.1, p.2)

/-- `HIRSolver.run` (analyse.ts): iterate until no progress. -/
def hirRunF : Nat → List HIRData → List (Nat × ActSt) → St → Res (List (Nat × ActSt))
  | 0, _, _, _ => .fuel
  | n + 1, regs, acts, st =>
    (hirIterateF n regs acts st).bind fun st1 p =>
    if p.1 then hirRunF n regs p.2 st1 else .ok st1 p.2

/-- The initial closure state for each register kind (the `HIRSolver`
constructor building `this.actions`). -/
def initActSt : HIRData → ActSt
  | .callH _ _ _ _ => .callA none
  | .lambdaH _ _ _ _ => .lambdaA [] none
  | .symbolRule _ _ _ _ => .ruleA false
  | _ => .plain

def initActs (regs : List HIRData) : List (Nat × ActSt) :=
  (List.range regs.length).map fun i => (i, initActSt ((regs[i]?).getD .root))

/-! ## Theorems -/

/-- C10 helper: the level literal `0`. -/
def levelZero : Expr := .num true 0

/-- **C10.** The literal level 0 is a two-sided identity of `makeLevelMax`,
eliminated even for symbolic arguments: for every expression `a`,
`makeLevelMax a 0` and `makeLevelMax 0 a` both return `a` itself, never a
residual `Level.max` call. -/
theorem claim_C10_level_max_zero_identity (a : Expr) :
    makeLevelMax a levelZero = a ∧ makeLevelMax levelZero a = a := by
  constructor <;>
    cases a <;>
      simp [makeLevelMax, evaluateLevelMax, isLevelLit, levelZero] <;>
        rename_i isLvl v <;> cases isLvl <;> simp

/-! C5: the `Hold` flag.  `SymbolFlags.HOLD = 32` is declared (analyse.ts
line 25) but the evaluator's SYMBOL case (line 1901) checks only `ownValue`
and the presence of `value`; no code consults `HOLD`.  `holdSt` interns a
symbol (id 12) whose flags are exactly `HOLD` and whose `value` is the
literal `5`. -/

def holdSt : St :=
  { initSt with symbols := builtinSymbols ++
      [{ name := some "held", parent := none, flags := 32, evalFn := none,
         type := none, value := some (.num false 5), subSymbols := [],
         downValues := [], upValues := [] }] }

/-- **C5.** Contrary to the claim that `Hold` prevents unfolding, the
evaluator unfolds a `Hold`-flagged symbol with a set `value`: symbol 12 of
`holdSt` carries exactly the `Hold` flag (32) and value `5`, and
`evaluate` reduces it to `5` instead of leaving the symbol in place. -/
theorem claim_C5_hold_flag_ignored :
    ((holdSt.symbols[12]?).map (·.flags) = some 32) ∧
      ((holdSt.symbols[12]?).bind (·.value) = some (.num false 5)) ∧
      evalF 10 holdSt (.sym 12) = .ok holdSt (.num false 5) := by
  refine ⟨rfl, rfl, ?_⟩
  rfl

/-! C4: idempotence of evaluation.  The counterexample exploits that
β-substitution marks the walked binders' variables into the exclusion sets
of the replacement's unknowns (`replaceScopeVariables`/`enterScope`), even
for binders unrelated to the substitution.  With the lambda
`L = λx. ?u(x)` shared between the function and argument parts of a call,
the first evaluation (i) evaluates the function part, where η-reduction of
`L` is blocked because `?u` does not exclude `x`, and then (ii) evaluates
the argument part, whose β-step walks through the shared `L` and adds `x`
to `?u`'s exclusions.  Re-evaluating the result now η-reduces `L` to `?u`,
so the second result differs. -/

def st4 : St :=
  { initSt with
    symbols := builtinSymbols ++ [mkSym "c" none 0 none none [], mkSym "c2" none 0 none none []],
    unknowns := [{ value := none, type := none, isPattern := false, excluded := [] }],
    varTypes := [.sym idLevel, .sym idUntyped, .sym idUntyped] }

/-- `L = λ(x:untyped). ?0(x)` with `x` the interned variable 1. -/
def L4 : Expr := .lam (some 1) (.sym idUntyped) (.call (.unk 0) (.var 1) 0) 0

/-- `(λ(z:untyped). c2(L))(?0)` with `z` the interned variable 2. -/
def arg4 : Expr := .call (.lam (some 2) (.sym idUntyped) (.call (.sym 13) L4 0) 0) (.unk 0) 0

/-- The counterexample input `c(L)(arg4)`. -/
def e4 : Expr := .call (.call (.sym 12) L4 0) arg4 0

/-- `evaluate(e)` terminates, `evaluate(evaluate(e))` terminates, and the
two results are not `sameQ`. -/
def evalTwiceNotSameQ (n : Nat) (st : St) (e : Expr) : Bool :=
  match evalF n st e with
  | .ok st1 r =>
    match evalF n st1 r with
    | .ok st2 r2 =>
      match sameQF n st2 r2 r with
      | .ok _ b => !b
      | _ => false
    | _ => false
  | _ => false

/-- **C4.** Evaluation is not idempotent: on `e4` both evaluations
terminate, yet `evaluate(evaluate(e4))` is not `sameQ` to `evaluate(e4)`
(the first run's exclusion-set mutation unblocks an η-reduction in the
second run). -/
theorem claim_C4_evaluate_not_idempotent : evalTwiceNotSameQ 30 st4 e4 = true := by
  rfl

/-! C3: termination of `ConstraintSolver.evaluate`.  The evaluator diverges
on the self-application `Ω = (λx. x x)(λx. x x)`, so the solver loop never
completes on a queue holding `Equal(Ω, 0)`: constraint evaluation begins by
evaluating both sides. -/

/-- `λ(x:untyped). x x` with `x` the interned variable 1. -/
def dOmega : Expr := .lam (some 1) (.sym idUntyped) (.call (.var 1) (.var 1) 0) 0

/-- `Ω = (λx. x x)(λx. x x)`. -/
def omegaE : Expr := .call dOmega dOmega 0

/-- A store whose constraint queue is the single constraint `Ω === 0`. -/
def omegaSt : St :=
  { initSt with
    varTypes := [.sym idLevel, .sym idUntyped],
    constraints := [.equal omegaE (.num true 0)] }

/-- `λx. x x` is an evaluator fixed point (five fuel steps suffice, with no
state change). -/
theorem evalF_dOmega (n : Nat) (st : St) : evalF (n + 5) st dOmega = .ok st dOmega := rfl

/-- One β-cycle of `Ω`: the evaluator returns to `Ω` in the same state. -/
theorem evalF_omega_step (m : Nat) (st : St) :
    evalF (m + 6) st omegaE = evalF (m + 5) st omegaE := rfl

/-- The evaluator never terminates on `Ω`, whatever the fuel. -/
theorem evalF_omega_fuel (n : Nat) : ∀ st : St, evalF n st omegaE = .fuel := by
  induction n using Nat.strong_induction_on with
  | _ n ih =>
    match n with
    | 0 => intro st; rfl
    | 1 => intro st; rfl
    | 2 => intro st; rfl
    | 3 => intro st; rfl
    | 4 => intro st; rfl
    | 5 => intro st; rfl
    | m + 6 =>
      intro st
      calc evalF (m + 6) st omegaE = evalF (m + 5) st omegaE := evalF_omega_step m st
        _ = .fuel := ih (m + 5) (by omega) st

/-- The constraint-solver loop never terminates on the `Ω` queue. -/
theorem csolver_omega_fuel (n : Nat) : csolverEvaluateF n omegaSt = .fuel := by
  match n with
  | 0 => rfl
  | n + 1 =>
    have key : snapshotPassF n omegaSt = .fuel := by
      have hc : omegaSt.constraints = [.equal omegaE (.num true 0)] := rfl
      show passF n omegaSt.constraints _ false = .fuel
      rw [hc]
      simp only [passF, evaluateConstraintF]
      rw [evalF_omega_fuel]
      rfl
    show solverEvaluateF (n + 1) omegaSt false = .fuel
    simp only [solverEvaluateF, key, Res.bind_fuel]

/-- The claim's statement: the solver terminates (returns) on this queue
for some fuel. -/
def SolverTerminates (st : St) : Prop :=
  ∃ n st' b, csolverEvaluateF n st = Res.ok st' b

/-- **C3 (counterexample).** `ConstraintSolver.evaluate()` does not
terminate for every finite queue: on the queue `[Equal(Ω, 0)]` it never
completes, for any fuel bound. -/
theorem claim_C3_counterexample_omega_queue : ¬ SolverTerminates omegaSt := by
  rintro ⟨n, st', b, h⟩
  rw [csolver_omega_fuel] at h
  exact absurd h (by simp)

/-- **C3 (amended).** What the loop does guarantee: `evaluate()` returns as
soon as a full pass over the snapshotted queue makes no progress; it is only
such a pass — not the mere finiteness of the queue — that ensures
termination. -/
theorem claim_C3_no_progress_pass_returns (n : Nat) (st st' : St) (ret : Bool)
    (h : snapshotPassF n st = .ok st' false) :
    solverEvaluateF (n + 1) st ret = .ok st' ret := by
  simp only [solverEvaluateF, h, Res.bind_ok]
  simp

/-- A store whose single constraint `c === c2` relates two distinct rigid
symbols: the pass re-queues it and reports no progress. -/
def stuckSt : St :=
  { initSt with
    symbols := builtinSymbols ++ [mkSym "c" none 0 none none [], mkSym "c2" none 0 none none []],
    constraints := [.equal (.sym 12) (.sym 13)] }

theorem claim_C3_no_progress_pass_returns_witness :
    solverEvaluateF 21 stuckSt true = .ok stuckSt true :=
  claim_C3_no_progress_pass_returns 20 stuckSt stuckSt true (by rfl)

/-! C7: the Number register's poll action (analyse.ts lines 1708-1718). -/

/-- **C7.** A `Number` register resolves exactly when its slot's type is the
built-in `number` symbol (emitting a runtime-number literal) or the built-in
`Level` symbol (emitting a level literal); any other or absent slot type
leaves the action `UNCHANGED` with the store untouched (so the register
stays unresolved). -/
theorem claim_C7_number_poll (n : Nat) (regs : List HIRData) (idx v : Nat) (ast : ActSt)
    (st : St) (hreg : regs[idx]? = some (.number v)) :
    pollActionF n regs idx ast st =
      if st.slotType idx = some (.sym idNumber) then
        .ok (st.setSlotValue idx (.num false v)) (.done, .plain)
      else if st.slotType idx = some (.sym idLevel) then
        .ok (st.setSlotValue idx (.num true v)) (.done, .plain)
      else .ok st (.unchanged, .plain) := by
  unfold pollActionF
  rw [hreg]
  simp only [beq_iff_eq]

/-- A store with one HIR slot whose propagated type is `Level`. -/
def numSt : St :=
  { initSt with hir := [{ errored := false, type := some (.sym idLevel), value := none }] }

theorem claim_C7_number_poll_witness :
    pollActionF 5 [.number 7] 0 .plain numSt =
      .ok (numSt.setSlotValue 0 (.num true 7)) (.done, .plain) := by
  have h := claim_C7_number_poll 5 [.number 7] 0 7 .plain numSt rfl
  simpa using h

/-! C6: the CLI exit code (`run` in main.ts lines 6-36).  `run` prints the
HIR dump, then either the type-check diagnostics or the symbol dump (or, on
parse failure, the rendered parse errors) — and never calls `process.exit`
nor assigns `process.exitCode`, so the Node process exits with its default
status 0 on every path.  The out-of-scope collaborators (`checkTypes`'s
diagnostics-or-null result, the dump and render functions) enter as
parameters. -/

/-- An observable effect of the CLI process: a printed line or an exit-code
assignment. -/
inductive Effect where
  | log (line : String)
  | exitE (code : Nat)
deriving DecidableEq, Repr

/-- The exit status of a Node process that ran to completion: the last
assigned exit code, or the default 0. -/
def finalExitCode (effs : List Effect) : Nat :=
  effs.foldl (fun acc e => match e with | .exitE c => c | .log _ => acc) 0

/-- The effect trace of `run` (main.ts lines 6-36): every branch only
prints; no branch touches the exit code. -/
def runEffects (parseOk : Bool) (hirDump : List String) (typeCheck : Option (List String))
    (regDump : List String) (parseErrors : List String) : List Effect :=
  if parseOk then
    ([Effect.log "hir:"] ++ hirDump.map .log) ++
      (match typeCheck with
        | some diags => diags.map .log
        | none => regDump.map .log)
  else parseErrors.map .log

theorem finalExitCode_logs_aux (l : List String) (acc : Nat) :
    (l.map Effect.log).foldl (fun acc e => match e with | .exitE c => c | .log _ => acc) acc
      = acc := by
  induction l generalizing acc with
  | nil => rfl
  | cons a t ih => simpa using ih acc

/-- **C6 (counterexample).** A run in which a diagnostic fired (the
type-check result is the nonempty diagnostic list) still exits with code 0,
contradicting "nonzero whenever any diagnostic fired". -/
theorem claim_C6_counterexample_diag_exit_zero :
    finalExitCode (runEffects true ["%0: ..."] (some ["unresolved constraint a === b"]) [] [])
      = 0 := rfl

/-- **C6 (amended).** The CLI exits with code 0 on every completed run,
whether or not diagnostics fired: `run` never sets an exit code. -/
theorem claim_C6_exit_always_zero (parseOk : Bool) (hirDump : List String)
    (typeCheck : Option (List String)) (regDump : List String) (parseErrors : List String) :
    finalExitCode (runEffects parseOk hirDump typeCheck regDump parseErrors) = 0 := by
  cases parseOk <;> cases typeCheck <;>
    simp [runEffects, finalExitCode, finalExitCode_logs_aux]

/-! C8: rule lookup order for a call. -/

/-- The head symbol of a call argument, following the spec's "each `ai`
whose head is a Symbol `s`": the argument itself when it is a Symbol, the
spine head when it is a call with a Symbol head, nothing otherwise. -/
def specArgHeadSymbol (st : St) (n : Nat) (a : Expr) : Option (Option Nat) :=
  match a with
  | .sym i => some (some i)
  | .call _ _ _ =>
    (getFnF st n a).map fun h =>
      match h with
      | .sym j => some j
      | _ => none
  | _ => some none

/-- The per-argument head symbols, in argument order. -/
def specArgHeads (st : St) (n : Nat) : List Expr → Option (List (Option Nat))
  | [] => some []
  | a :: rest =>
    (specArgHeadSymbol st n a).bind fun h =>
      (specArgHeads st n rest).map fun t => h :: t

/-- The spec's rule list for a call: the concatenation, in argument order,
of the upValues of each argument's head symbol, followed by the head
symbol's downValues. -/
def specRulesF (st : St) (n : Nat) (e : Expr) : Option (List (Expr × Expr)) :=
  (collectFnArgsF st n e []).bind fun p =>
    (specArgHeads st n (p.2.map (·.1))).map fun heads =>
      (heads.map fun h => (h.map st.symUpValues).getD []).flatten ++
        (match p.1 with | .sym i => st.symDownValues i | _ => [])

theorem collectUpRules_eq_spec (st : St) (n : Nat) (args : List Expr) :
    collectUpRules st n args =
      (specArgHeads st n args).map fun heads =>
        (heads.map fun h => (h.map st.symUpValues).getD []).flatten := by
  induction args with
  | nil => rfl
  | cons a rest ih =>
    cases a <;>
      simp only [collectUpRules, specArgHeadSymbol, specArgHeads, ih]
    case call f a' c =>
      cases hfn : getFnF st n (.call f a' c) with
      | none => simp [hfn, Option.bind]
      | some h =>
        cases h <;> simp only [hfn, Option.bind, Option.map_some] <;>
          cases hm : specArgHeads st n rest <;> simp [hm]
    all_goals cases hm : specArgHeads st n rest <;> simp [hm, Option.bind]

/-- The first matching rule of a list, mirroring the rule loop's fuel
discipline; on a match it also returns the fuel remaining at that point. -/
def firstMatchF : Nat → List (Expr × Expr) → St → Expr →
    Res (Option (Nat × Expr × List (Nat × Expr)))
  | 0, _, _, _ => .fuel
  | _ + 1, [], st, _ => .ok st none
  | n + 1, (lhs, rhs) :: rest, st, e =>
    (matchPatternF n st [] lhs e).bind fun st1 r =>
      match r with
      | some reps => .ok st1 (some (n, rhs, reps))
      | none => firstMatchF n rest st1 e

/-- The rule loop is first-match semantics: it scans the rule list in order
and, at the first rule whose lhs matches, substitutes the bindings into that
rule's rhs and evaluates the result; with no match the call is emitted
unchanged. -/
theorem tryRules_eq_firstMatch (n : Nat) (rules : List (Expr × Expr)) (st : St) (e : Expr) :
    tryRulesF n rules st e =
      (firstMatchF n rules st e).bind fun st1 r =>
        match r with
        | some (m, rhs, reps) =>
          (substTopF true m st1 reps rhs).bind fun st2 r2 => evalF m st2 r2
        | none => .ok st1 e := by
  induction n generalizing rules st with
  | zero => rfl
  | succ n ih =>
    cases rules with
    | nil => rfl
    | cons r rest =>
      simp only [tryRulesF, firstMatchF]
      cases hm : matchPatternF n st [] r.1 e with
      | fuel => rfl
      | panic => rfl
      | ok st1 res =>
        cases res with
        | some reps => simp [Res.bind]
        | none => simpa [Res.bind] using ih rest st1

/-- **C8.** For a call whose spine head is a Symbol whose built-in
evaluator yields nothing, the rules tried are exactly the spec's
concatenation (upValues of the argument heads in argument order, then the
head's downValues), and the first rule whose lhs matches is the one whose
rhs is substituted and evaluated; with no match the call is emitted. -/
theorem claim_C8_rule_lookup (n : Nat) (st : St) (e : Expr) (s : Nat)
    (args : List (Expr × Nat)) (d : SymData)
    (hspine : collectFnArgsF st n e [] = some (.sym s, args))
    (hsym : st.symbols[s]? = some d)
    (hbuiltin : applyBuiltinFn d.evalFn (args.map (·.1)) = none) :
    collectRulesF st n e = specRulesF st n e ∧
    postCallF (n + 1) st e =
      (specRulesF st n e).elim Res.fuel fun rules =>
        (firstMatchF n rules st e).bind fun st1 r =>
          match r with
          | some (m, rhs, reps) =>
            (substTopF true m st1 reps rhs).bind fun st2 r2 => evalF m st2 r2
          | none => .ok st1 e := by
  have hcoll : collectRulesF st n e = specRulesF st n e := by
    simp only [collectRulesF, specRulesF, hspine, Option.bind, collectUpRules_eq_spec]
    cases hm : specArgHeads st n (args.map (·.1)) <;> simp [hm]
  refine ⟨hcoll, ?_⟩
  simp only [postCallF, hspine, hsym, hbuiltin, hcoll]
  cases hr : specRulesF st n e with
  | none => rfl
  | some rules => simpa using tryRules_eq_firstMatch n rules st e

/-- A symbol `f` (id 12) with `AllowDownValue` and the one rewrite rule
`f(x) = x`. -/
def fSymData : SymData :=
  { name := some "f", parent := none, flags := 4, evalFn := none, type := none,
    value := none, subSymbols := [],
    downValues := [(.call (.sym 12) (.var 1) 0, .var 1)], upValues := [] }

def ruleSt : St :=
  { initSt with
    symbols := builtinSymbols ++ [fSymData],
    varTypes := [.sym idLevel, .sym idUntyped] }

/-- The call `f(5)`. -/
def ruleE : Expr := .call (.sym 12) (.num false 5) 0

theorem claim_C8_rule_lookup_witness :
    collectRulesF ruleSt 10 ruleE = specRulesF ruleSt 10 ruleE ∧
    postCallF 11 ruleSt ruleE =
      (specRulesF ruleSt 10 ruleE).elim Res.fuel fun rules =>
        (firstMatchF 10 rules ruleSt ruleE).bind fun st1 r =>
          match r with
          | some (m, rhs, reps) =>
            (substTopF true m st1 reps rhs).bind fun st2 r2 => evalF m st2 r2
          | none => .ok st1 ruleE :=
  claim_C8_rule_lookup 10 ruleSt ruleE 12 [(.num false 5, 0)] fSymData rfl rfl rfl

/-! ## State-evolution machinery for C1, C2 and C9

`sigma` is the Unknown-value view, `symValue` the Symbol-value view.
`Pres st st'` says a step preserves both views pointwise (no value write at
all); `Mono st st'` says set values are never changed (write-once). -/

def symValue (st : St) (i : Nat) : Option Expr := (st.symbols[i]?).bind (·.value)

def Pres (st st' : St) : Prop :=
  (∀ i, sigma st' i = sigma st i) ∧ (∀ i, symValue st' i = symValue st i)

def Mono (st st' : St) : Prop :=
  (∀ i v, sigma st i = some v → sigma st' i = some v) ∧
    (∀ i v, symValue st i = some v → symValue st' i = some v)

theorem Pres.refl (st : St) : Pres st st := ⟨fun _ => rfl, fun _ => rfl⟩

theorem Pres.trans {s1 s2 s3 : St} (h1 : Pres s1 s2) (h2 : Pres s2 s3) : Pres s1 s3 :=
  ⟨fun i => (h2.1 i).trans (h1.1 i), fun i => (h2.2 i).trans (h1.2 i)⟩

theorem Pres.mono {s1 s2 : St} (h : Pres s1 s2) : Mono s1 s2 :=
  ⟨fun i v hv => (h.1 i).trans hv, fun i v hv => (h.2 i).trans hv⟩

theorem Mono.monoRefl (st : St) : Mono st st := ⟨fun _ _ h => h, fun _ _ h => h⟩

theorem Mono.monoTrans {s1 s2 s3 : St} (h1 : Mono s1 s2) (h2 : Mono s2 s3) : Mono s1 s3 :=
  ⟨fun i v hv => h2.1 i v (h1.1 i v hv), fun i v hv => h2.2 i v (h1.2 i v hv)⟩

/-- A `Res` computation whose successful outcome preserves both value
views. -/
def presR {α : Type} (st : St) (r : Res α) : Prop :=
  ∀ st' a, r = Res.ok st' a → Pres st st'

/-- A `Res` computation whose successful outcome is write-once monotone. -/
def monoR {α : Type} (st : St) (r : Res α) : Prop :=
  ∀ st' a, r = Res.ok st' a → Mono st st'

theorem presR_ok {α : Type} {st st1 : St} {a : α} (h : Pres st st1) :
    presR st (Res.ok st1 a) := by
  intro st' b hb
  cases hb
  exact h

theorem presR_fuel {α : Type} {st : St} : presR st (Res.fuel : Res α) := by
  intro st' a h
  cases h

theorem presR_panic {α : Type} {st : St} : presR st (Res.panic : Res α) := by
  intro st' a h
  cases h

theorem presR_bind {α β : Type} {st : St} {m : Res α} {f : St → α → Res β}
    (h1 : presR st m) (h2 : ∀ st1 a, m = Res.ok st1 a → presR st1 (f st1 a)) :
    presR st (m.bind f) := by
  intro st' b hb
  cases m with
  | ok st1 a =>
    exact (h1 st1 a rfl).trans (h2 st1 a rfl st' b (by simpa [Res.bind] using hb))
  | fuel => simp [Res.bind] at hb
  | panic => simp [Res.bind] at hb

theorem monoR_ok {α : Type} {st st1 : St} {a : α} (h : Mono st st1) :
    monoR st (Res.ok st1 a) := by
  intro st' b hb
  cases hb
  exact h

theorem monoR_fuel {α : Type} {st : St} : monoR st (Res.fuel : Res α) := by
  intro st' a h
  cases h

theorem monoR_panic {α : Type} {st : St} : monoR st (Res.panic : Res α) := by
  intro st' a h
  cases h

theorem monoR_bind {α β : Type} {st : St} {m : Res α} {f : St → α → Res β}
    (h1 : monoR st m) (h2 : ∀ st1 a, m = Res.ok st1 a → monoR st1 (f st1 a)) :
    monoR st (m.bind f) := by
  intro st' b hb
  cases m with
  | ok st1 a =>
    exact (h1 st1 a rfl).monoTrans (h2 st1 a rfl st' b (by simpa [Res.bind] using hb))
  | fuel => simp [Res.bind] at hb
  | panic => simp [Res.bind] at hb

theorem presR_mono {α : Type} {st : St} {m : Res α} (h : presR st m) : monoR st m :=
  fun st' a hb => (h st' a hb).mono

/-! Primitive state operations and their effect on the two views. -/

theorem listModify_get {α : Type} (f : α → α) (k : Nat) (l : List α) (j : Nat) :
    (listModify f k l)[j]? = if j = k then (l[j]?).map f else l[j]? := by
  induction l generalizing k j with
  | nil => simp [listModify]
  | cons a t ih =>
    cases k with
    | zero =>
      cases j with
      | zero => simp [listModify]
      | succ j => simp [listModify]
    | succ k =>
      cases j with
      | zero => simp [listModify]
      | succ j => simpa [listModify] using ih k j

theorem sigma_unknowns_eq {st st' : St} (h : st'.unknowns = st.unknowns) (i : Nat) :
    sigma st' i = sigma st i := by
  simp [sigma, h]

theorem symValue_symbols_eq {st st' : St} (h : st'.symbols = st.symbols) (i : Nat) :
    symValue st' i = symValue st i := by
  simp [symValue, h]

theorem pres_of_same {st st' : St} (hu : st'.unknowns = st.unknowns)
    (hs : st'.symbols = st.symbols) : Pres st st' :=
  ⟨sigma_unknowns_eq hu, symValue_symbols_eq hs⟩

theorem scanUnknowns_same (st : St) (e : Expr) :
    (st.scanUnknowns e).unknowns = st.unknowns ∧ (st.scanUnknowns e).symbols = st.symbols := by
  unfold St.scanUnknowns
  generalize scanUnks e = l
  induction l generalizing st with
  | nil => exact ⟨rfl, rfl⟩
  | cons a t ih =>
    rw [List.foldl_cons]
    exact ih (st.addConstraintUnknown a)

theorem scanFold_same (reps : List (Nat × Expr)) (st0 : St) :
    ((reps.foldl (fun s kv => s.scanUnknowns kv.2) st0).unknowns = st0.unknowns) ∧
      ((reps.foldl (fun s kv => s.scanUnknowns kv.2) st0).symbols = st0.symbols) := by
  induction reps generalizing st0 with
  | nil => exact ⟨rfl, rfl⟩
  | cons kv t ih =>
    rw [List.foldl_cons]
    have hs := scanUnknowns_same st0 kv.2
    have h2 := ih (st0.scanUnknowns kv.2)
    exact ⟨h2.1.trans hs.1, h2.2.trans hs.2⟩

theorem scanCon_same (st : St) (c : Constraint) :
    (scanConstraintUnknowns st c).unknowns = st.unknowns ∧
      (scanConstraintUnknowns st c).symbols = st.symbols := by
  cases c with
  | equal e1 e2 =>
    have h1 := scanUnknowns_same st e1
    have h2 := scanUnknowns_same (st.scanUnknowns e1) e2
    exact ⟨h2.1.trans h1.1, h2.2.trans h1.2⟩
  | equalWithReplace t i reps =>
    exact ⟨(scanFold_same reps (st.addConstraintUnknown t)).1,
      (scanFold_same reps (st.addConstraintUnknown t)).2⟩
  | fnTypeType t t1 t2 =>
    have h1 := scanUnknowns_same (st.addConstraintUnknown t) t1
    have h2 := scanUnknowns_same ((st.addConstraintUnknown t).scanUnknowns t1) t2
    exact ⟨h2.1.trans h1.1, h2.2.trans h1.2⟩
  | typeofC t i =>
    have h1 := scanUnknowns_same (st.addConstraintUnknown t) (.unk i)
    exact ⟨h1.1, h1.2⟩

theorem pres_addCon (st : St) (c : Constraint) : Pres st (st.addCon c) :=
  pres_of_same (scanCon_same st c).1 (scanCon_same st c).2

theorem pres_addEqual (st : St) (e1 e2 : Expr) : Pres st (st.addEqual e1 e2) :=
  pres_addCon st _

theorem pres_addErrored (st : St) (c : Constraint) : Pres st (st.addErrored c) :=
  pres_of_same rfl rfl

theorem pres_cacheSet (st : St) (e t : Expr) : Pres st (st.cacheSet e t) :=
  pres_of_same rfl rfl

theorem pres_allocVar (st : St) (t : Expr) : Pres st (st.allocVar t).1 :=
  pres_of_same rfl rfl

theorem pres_setSlotValue (st : St) (i : Nat) (v : Expr) : Pres st (st.setSlotValue i v) :=
  pres_of_same rfl rfl

theorem pres_setSlotType (st : St) (i : Nat) (t : Expr) : Pres st (st.setSlotType i t) :=
  pres_of_same rfl rfl

theorem sigma_append_unset (st : St) (d : UnkData) (hd : d.value = none) (i : Nat) :
    sigma { st with unknowns := st.unknowns ++ [d] } i = sigma st i := by
  unfold sigma
  rcases Nat.lt_trichotomy i st.unknowns.length with h | h | h
  · simp [List.getElem?_append_left h]
  · subst h
    rw [List.getElem?_append_right (Nat.le_refl _), Nat.sub_self]
    simp [hd, List.getElem?_eq_none (Nat.le_refl _)]
  · have h1 : st.unknowns.length ≤ i := Nat.le_of_lt h
    have h2 : (st.unknowns ++ [d]).length ≤ i := by
      simpa using h
    rw [List.getElem?_eq_none h2, List.getElem?_eq_none h1]

theorem pres_allocUnk (st : St) (d : UnkData) (hd : d.value = none) :
    Pres st (st.allocUnk d).1 :=
  ⟨fun i => sigma_append_unset st d hd i, fun i => rfl⟩

theorem symValue_append_unset (st : St) (d : SymData) (hd : d.value = none) (i : Nat) :
    symValue { st with symbols := st.symbols ++ [d] } i = symValue st i := by
  unfold symValue
  rcases Nat.lt_trichotomy i st.symbols.length with h | h | h
  · simp [List.getElem?_append_left h]
  · subst h
    rw [List.getElem?_append_right (Nat.le_refl _), Nat.sub_self]
    simp [hd, List.getElem?_eq_none (Nat.le_refl _)]
  · have h1 : st.symbols.length ≤ i := Nat.le_of_lt h
    have h2 : (st.symbols ++ [d]).length ≤ i := by
      simpa using h
    rw [List.getElem?_eq_none h2, List.getElem?_eq_none h1]

theorem pres_allocSym (st : St) (d : SymData) (hd : d.value = none) :
    Pres st (st.allocSym d).1 :=
  ⟨fun _ => rfl, fun i => symValue_append_unset st d hd i⟩

theorem sigma_listModify_preserve (st : St) (f : UnkData → UnkData) (k : Nat)
    (hf : ∀ d, (f d).value = d.value) (i : Nat) :
    sigma { st with unknowns := listModify f k st.unknowns } i = sigma st i := by
  unfold sigma
  simp only [listModify_get]
  by_cases h : i = k
  · subst h
    cases st.unknowns[i]? with
    | none => simp
    | some d => simp [hf d]
  · simp [h]

theorem symValue_listModify_preserve (st : St) (f : SymData → SymData) (k : Nat)
    (hf : ∀ d, (f d).value = d.value) (i : Nat) :
    symValue { st with symbols := listModify f k st.symbols } i = symValue st i := by
  unfold symValue
  simp only [listModify_get]
  by_cases h : i = k
  · subst h
    cases st.symbols[i]? with
    | none => simp
    | some d => simp [hf d]
  · simp [h]

theorem pres_addExcluded (st : St) (i v : Nat) : Pres st (st.addExcluded i v) :=
  ⟨fun j =>
    sigma_listModify_preserve st (fun d => { d with excluded := addOnce d.excluded v }) i
      (fun _ => rfl) j,
   fun _ => rfl⟩

theorem pres_markExcludedVariable (st : St) (e : Expr) (v : Nat) :
    Pres st (st.markExcludedVariable e v) := by
  unfold St.markExcludedVariable
  generalize scanUnks e = l
  induction l generalizing st with
  | nil => exact Pres.refl st
  | cons a t ih =>
    rw [List.foldl_cons]
    exact (pres_addExcluded st a v).trans (ih (st.addExcluded a v))

theorem pres_markRenamedVariable (st : St) (vOld vNew : Nat) (e : Expr) :
    Pres st (st.markRenamedVariable vOld vNew e) := by
  unfold St.markRenamedVariable
  generalize scanUnks e = l
  induction l generalizing st with
  | nil => exact Pres.refl st
  | cons a t ih =>
    rw [List.foldl_cons]
    refine Pres.trans ?_ (ih _)
    split
    · exact pres_addExcluded st a vNew
    · exact Pres.refl st

theorem pres_markFold (st : St) (reps : List (Nat × Expr)) (v : Nat) :
    Pres st (reps.foldl (fun s kv => s.markExcludedVariable kv.2 v) st) := by
  induction reps generalizing st with
  | nil => exact Pres.refl st
  | cons kv t ih =>
    rw [List.foldl_cons]
    exact (pres_markExcludedVariable st kv.2 v).trans (ih _)

theorem pres_setParentF (st : St) (c : Nat) : Pres st (st.setParentF c) := by
  unfold St.setParentF
  cases st.symbols[c]? with
  | none => exact Pres.refl st
  | some d =>
    cases hp : d.parent with
    | none => simp only [hp]; exact Pres.refl st
    | some p =>
      cases hn : d.name with
      | none => simp only [hp, hn]; exact Pres.refl st
      | some nm =>
        simp only [hp, hn]
        exact ⟨fun _ => rfl, fun i =>
          symValue_listModify_preserve st
            (fun pd => { pd with subSymbols := setAssocS pd.subSymbols nm c }) p
            (fun _ => rfl) i⟩

theorem pres_makeUnknownF (st : St) (t : Expr) (p : Bool) :
    Pres st (makeUnknownF st t p).1 :=
  pres_allocUnk st _ rfl

theorem pres_makeUnknownTypeF (st : St) : Pres st (makeUnknownTypeF st).1 := by
  unfold makeUnknownTypeF
  exact (pres_makeUnknownF st _ false).trans (pres_makeUnknownF _ _ false)

theorem pres_makeUnknownUniverseF (st : St) : Pres st (makeUnknownUniverseF st).1 :=
  pres_makeUnknownF st _ false

theorem pres_makeReplaceUnknownF (st : St) (src : Nat) (t : Option Expr)
    (reps : List (Nat × Expr)) : Pres st (makeReplaceUnknownF st src t reps).1 := by
  unfold makeReplaceUnknownF
  exact (pres_allocUnk st _ rfl).trans (pres_addCon _ _)

theorem presR_weaken {α : Type} {st0 st1 : St} {m : Res α} (h0 : Pres st0 st1)
    (h : presR st1 m) : presR st0 m :=
  fun st' a ha => h0.trans (h st' a ha)

theorem monoR_weaken {α : Type} {st0 st1 : St} {m : Res α} (h0 : Mono st0 st1)
    (h : monoR st1 m) : monoR st0 m :=
  fun st' a ha => h0.monoTrans (h st' a ha)

/-- Substitution never writes an Unknown's or a Symbol's value: its only
state effects are exclusion marking, fresh (unset) unknowns, and constraint
pushes. -/
theorem substF_pres (solver : Bool) :
    ∀ n st reps cache e, presR st (substF solver n st reps cache e) := by
  intro n
  induction n with
  | zero =>
    intro st reps cache e st' a h
    simp [substF] at h
  | succ n ih =>
    intro st reps cache e
    cases e with
    | sym i => exact presR_ok (Pres.refl st)
    | str s => exact presR_ok (Pres.refl st)
    | num l v => exact presR_ok (Pres.refl st)
    | var j =>
      simp only [substF]
      split
      · exact presR_ok (Pres.refl st)
      · exact presR_ok (Pres.refl st)
    | unk i =>
      simp only [substF]
      split
      · exact ih st reps cache _
      · split
        · exact presR_ok (Pres.refl st)
        · split
          · exact presR_ok (Pres.refl st)
          · split
            · split
              · refine presR_bind (ih st reps cache _) ?_
                intro st1 p _
                exact presR_ok (pres_makeReplaceUnknownF st1 i _ _)
              · exact presR_ok (pres_makeReplaceUnknownF st i none _)
            · exact presR_ok (pres_allocUnk st _ rfl)
    | call f a c =>
      simp only [substF]
      refine presR_bind (ih st reps cache f) ?_
      intro st1 p _
      refine presR_bind (ih st1 reps p.2 a) ?_
      intro st2 q _
      exact presR_ok (Pres.refl st2)
    | fnType arg i o c =>
      cases arg with
      | none =>
        simp only [substF]
        refine presR_bind (ih st reps cache i) ?_
        intro st1 p _
        refine presR_bind (ih st1 reps p.2 o) ?_
        intro st2 q _
        exact presR_ok (Pres.refl st2)
      | some v =>
        simp only [substF]
        refine presR_bind (ih st reps cache i) ?_
        intro st1 p _
        refine presR_bind (presR_weaken (pres_markFold st1 reps v) (ih _ reps p.2 o)) ?_
        intro st2 q _
        exact presR_ok (Pres.refl st2)
    | lam arg t b c =>
      cases arg with
      | none =>
        simp only [substF]
        refine presR_bind (ih st reps cache t) ?_
        intro st1 p _
        refine presR_bind (ih st1 reps p.2 b) ?_
        intro st2 q _
        exact presR_ok (Pres.refl st2)
      | some v =>
        simp only [substF]
        refine presR_bind (ih st reps cache t) ?_
        intro st1 p _
        refine presR_bind (presR_weaken (pres_markFold st1 reps v) (ih _ reps p.2 b)) ?_
        intro st2 q _
        exact presR_ok (Pres.refl st2)

theorem substTopF_pres (solver : Bool) (n : Nat) (st : St) (reps : List (Nat × Expr))
    (e : Expr) : presR st (substTopF solver n st reps e) := by
  unfold substTopF
  refine presR_bind (substF_pres solver n st reps [] e) ?_
  intro st1 p _
  exact presR_ok (Pres.refl st1)

theorem replaceScopeVariableF_pres (solver : Bool) (n : Nat) (st : St) (v : Nat)
    (rep e : Expr) : presR st (replaceScopeVariableF solver n st v rep e) :=
  substTopF_pres solver n st [(v, rep)] e

theorem pres_getCachedTypeF (st : St) (e : Expr) : Pres st (getCachedTypeF st e).1 := by
  unfold getCachedTypeF
  split
  · dsimp only
    split
    · exact pres_cacheSet st _ _
    · exact Pres.refl st
  · exact Pres.refl st

/-- The type solver never writes a value: it allocates unset unknowns,
posts constraints and fills the type cache. -/
theorem getTypeSolverF_pres : ∀ n st e, presR st (getTypeSolverF n st e) := by
  intro n
  induction n with
  | zero => intro st e st' a h; simp [getTypeSolverF] at h
  | succ n ih =>
    intro st e
    have hc := pres_getCachedTypeF st e
    cases e with
    | str s =>
      simp only [getTypeSolverF]
      split
      · exact presR_ok hc
      · exact presR_ok hc
    | num l v =>
      simp only [getTypeSolverF]
      split
      · exact presR_ok hc
      · exact presR_ok hc
    | unk i =>
      simp only [getTypeSolverF]
      split
      · exact presR_ok hc
      · split
        · exact presR_weaken hc (ih _ _)
        · split
          · exact presR_ok hc
          · refine presR_ok (hc.trans ?_)
            refine (pres_allocUnk _
              { value := none, type := none, isPattern := false,
                excluded := (getCachedTypeF st (Expr.unk i)).1.getExcluded i } rfl).trans
              (pres_addCon _ _)
    | var j =>
      simp only [getTypeSolverF]
      split
      · exact presR_ok hc
      · split
        · exact presR_ok hc
        · exact presR_panic
    | sym i =>
      simp only [getTypeSolverF]
      split
      · exact presR_ok hc
      · split
        · exact presR_ok hc
        · exact presR_panic
    | fnType arg i o c =>
      simp only [getTypeSolverF]
      split
      · exact presR_ok hc
      · refine presR_bind (presR_weaken hc (ih _ _)) ?_
        intro st1 ti _
        refine presR_bind (ih st1 o) ?_
        intro st2 tOut _
        refine presR_ok (((pres_allocUnk st2
          { value := none, type := none, isPattern := false, excluded := [] } rfl).trans
          (pres_addCon _ _)).trans (pres_cacheSet _ _ _))
    | call f a c =>
      simp only [getTypeSolverF]
      split
      · exact presR_ok hc
      · refine presR_bind (presR_weaken hc (ih _ _)) ?_
        intro st1 tf _
        split
        · refine presR_bind ?_ ?_
          · split
            · exact replaceScopeVariableF_pres true n st1 _ _ _
            · exact presR_ok (Pres.refl st1)
          · intro st2 t _
            exact presR_ok (pres_cacheSet st2 _ _)
        · exact presR_ok (pres_cacheSet st1 _ _)
    | lam arg t b c =>
      simp only [getTypeSolverF]
      split
      · exact presR_ok hc
      · refine presR_bind (presR_weaken hc (ih _ _)) ?_
        intro st1 tb _
        exact presR_ok (pres_cacheSet st1 _ _)

theorem getTypeTopF_pres (n : Nat) (st : St) (e : Expr) : presR st (getTypeTopF n st e) := by
  unfold getTypeTopF
  split
  · exact presR_ok (Pres.refl st)
  · exact getTypeSolverF_pres n st e

theorem sameQF_pres : ∀ n st e1 e2, presR st (sameQF n st e1 e2) := by
  intro n
  induction n with
  | zero => intro st e1 e2 st' a h; simp [sameQF] at h
  | succ n ih =>
    intro st e1 e2
    simp only [sameQF]
    split
    · exact presR_ok (Pres.refl st)
    · exact presR_ok (Pres.refl st)
    · exact presR_ok (Pres.refl st)
    · exact presR_ok (Pres.refl st)
    · exact presR_ok (Pres.refl st)
    · split
      · refine presR_bind (ih st _ _) ?_
        intro st1 b _
        split
        · exact ih st1 _ _
        · exact presR_ok (Pres.refl st1)
      · exact presR_ok (Pres.refl st)
    · split
      · refine presR_bind ?_ ?_
        · split
          · split
            · exact substTopF_pres false n st _ _
            · exact presR_ok (Pres.refl st)
          · exact presR_ok (Pres.refl st)
        · intro st1 o2' _
          refine presR_bind (ih st1 _ _) ?_
          intro st2 bi _
          split
          · exact ih st2 _ _
          · exact presR_ok (Pres.refl st2)
      · exact presR_ok (Pres.refl st)
    · split
      · refine presR_bind ?_ ?_
        · split
          · split
            · exact substTopF_pres false n st _ _
            · exact presR_ok (Pres.refl st)
          · exact presR_ok (Pres.refl st)
        · intro st1 b2' _
          exact ih st1 _ _
      · exact presR_ok (Pres.refl st)

theorem matchPatternF_pres : ∀ n st reps pat e, presR st (matchPatternF n st reps pat e) := by
  intro n
  induction n with
  | zero => intro st reps pat e st' a h; simp [matchPatternF] at h
  | succ n ih =>
    intro st reps pat e
    simp only [matchPatternF]
    split
    · exact presR_ok (Pres.refl st)
    · refine presR_bind (sameQF_pres n st _ _) ?_
      intro st1 b _
      exact presR_ok (Pres.refl st1)
    · refine presR_bind (sameQF_pres n st _ _) ?_
      intro st1 b _
      exact presR_ok (Pres.refl st1)
    · refine presR_bind (sameQF_pres n st _ _) ?_
      intro st1 b _
      exact presR_ok (Pres.refl st1)
    · refine presR_bind (sameQF_pres n st _ _) ?_
      intro st1 b _
      exact presR_ok (Pres.refl st1)
    · split
      · refine presR_bind (sameQF_pres n st _ _) ?_
        intro st1 b _
        exact presR_ok (Pres.refl st1)
      · exact presR_ok (Pres.refl st)
    · split
      · split
        · exact presR_ok (Pres.refl st)
        · refine presR_bind (ih st _ _ _) ?_
          intro st1 r _
          split
          · exact ih st1 _ _ _
          · exact presR_ok (Pres.refl st1)
      · exact presR_ok (Pres.refl st)
    · exact presR_ok (Pres.refl st)

/-- The evaluator never writes an Unknown's or a Symbol's value. -/
theorem evalF_pres_all :
    ∀ n, (∀ st e, presR st (evalF n st e)) ∧ (∀ st e, presR st (postCallF n st e)) ∧
      (∀ rules st e, presR st (tryRulesF n rules st e)) := by
  intro n
  induction n with
  | zero =>
    refine ⟨fun st e st' a h => ?_, fun st e st' a h => ?_, fun rules st e st' a h => ?_⟩ <;>
      simp [evalF, postCallF, tryRulesF] at h
  | succ n ih =>
    refine ⟨fun st e => ?_, fun st e => ?_, fun rules st e => ?_⟩
    · simp only [evalF]
      split
      · exact presR_ok (Pres.refl st)
      · exact presR_ok (Pres.refl st)
      · exact presR_ok (Pres.refl st)
      · split
        · split
          · exact ih.1 st _
          · exact presR_ok (Pres.refl st)
        · exact presR_panic
      · split
        · exact ih.1 st _
        · exact presR_ok (Pres.refl st)
      · refine presR_bind (ih.1 st _) ?_
        intro st1 ef _
        refine presR_bind (ih.1 st1 _) ?_
        intro st2 ea _
        split
        · refine presR_bind (replaceScopeVariableF_pres true n st2 _ _ _) ?_
          intro st3 r _
          exact ih.1 st3 _
        · exact presR_ok (Pres.refl st2)
        · exact ih.2.1 st2 _
      · refine presR_bind (ih.1 st _) ?_
        intro st1 ei _
        refine presR_bind (ih.1 st1 _) ?_
        intro st2 eo _
        exact presR_ok (Pres.refl st2)
      · refine presR_bind (ih.1 st _) ?_
        intro st1 eb _
        split
        · split
          · exact presR_fuel
          · split
            · exact presR_ok (Pres.refl st1)
            · exact presR_ok (Pres.refl st1)
          · exact presR_ok (Pres.refl st1)
        · exact presR_ok (Pres.refl st1)
    · simp only [postCallF]
      split
      · exact presR_fuel
      · split
        · split
          · exact presR_panic
          · split
            · exact presR_ok (Pres.refl st)
            · split
              · exact presR_fuel
              · exact ih.2.2 _ st _
        · exact presR_ok (Pres.refl st)
    · cases rules with
      | nil => exact presR_ok (Pres.refl st)
      | cons r rest =>
        simp only [tryRulesF]
        refine presR_bind (matchPatternF_pres n st _ _ _) ?_
        intro st1 m _
        split
        · refine presR_bind (substTopF_pres true n st1 _ _) ?_
          intro st2 r2 _
          exact ih.1 st2 _
        · exact ih.2.2 _ st1 _

/-! Constraint-solver steps are write-once monotone (`Mono`): the only
value writes are `setUnkValue` on an unset unknown. -/

theorem sigma_setUnkValue_ne (st : St) (t : Nat) (v : Expr) (i : Nat) (h : i ≠ t) :
    sigma (st.setUnkValue t v) i = sigma st i := by
  unfold sigma St.setUnkValue
  simp only [listModify_get, h, if_false]

theorem mono_setUnkValue_unset (st : St) (t : Nat) (v : Expr) (h : sigma st t = none) :
    Mono st (st.setUnkValue t v) := by
  constructor
  · intro i w hw
    by_cases hit : i = t
    · subst hit
      rw [h] at hw
      cases hw
    · rw [sigma_setUnkValue_ne st t v i hit]
      exact hw
  · intro i w hw
    exact hw

theorem monoR_assignUnknownF (n : Nat) (st : St) (target : Nat) (value : Expr)
    (h : sigma st target = none) : monoR st (assignUnknownF n st target value) := by
  unfold assignUnknownF
  split
  · exact monoR_fuel
  · exact monoR_ok (Mono.monoRefl st)
  · refine monoR_bind ?_ ?_
    · split
      · refine presR_mono (presR_bind (getTypeTopF_pres n st _) ?_)
        intro st1 tv _
        exact presR_ok (pres_addEqual st1 _ _)
      · exact presR_mono (presR_ok (Pres.refl st))
    · intro st2 u hok
      refine monoR_ok (mono_setUnkValue_unset st2 target value ?_)
      have hp : Pres st st2 := by
        revert hok
        split
        · intro hok
          refine presR_bind (getTypeTopF_pres n st _) ?_ st2 u hok
          intro st1 tv _
          exact presR_ok (pres_addEqual st1 _ _)
        · intro hok
          cases hok
          exact Pres.refl st
      rw [hp.1 target]
      exact h

theorem pres_addEqualFold (st : St) (l : List ((Expr × Nat) × Expr × Nat)) :
    Pres st (l.foldl (fun s p => s.addEqual p.1.1 p.2.1) st) := by
  induction l generalizing st with
  | nil => exact Pres.refl st
  | cons p t ih =>
    rw [List.foldl_cons]
    exact (pres_addEqual st _ _).trans (ih _)

theorem equalCallCallF_pres (n : Nat) (st : St) (e1 e2 : Expr) :
    presR st (equalCallCallF n st e1 e2) := by
  unfold equalCallCallF
  split
  · split
    · split
      · split
        · exact presR_panic
        · split
          · dsimp only
            split
            · refine presR_bind (presR_weaken (pres_addEqualFold st _) (getTypeTopF_pres n _ _)) ?_
              intro st2 t1 _
              refine presR_bind (getTypeTopF_pres n st2 _) ?_
              intro st3 t2 _
              exact presR_ok (pres_addEqual st3 _ _)
            · exact presR_ok (pres_addEqualFold st _)
          · exact presR_ok (Pres.refl st)
      · exact presR_ok (Pres.refl st)
    · split
      · exact presR_ok (pres_addErrored st _)
      · split
        · exact presR_panic
        · dsimp only
          refine presR_bind (presR_weaken (pres_addEqualFold st _) (getTypeTopF_pres n _ _)) ?_
          intro st2 t1 _
          refine presR_bind (getTypeTopF_pres n st2 _) ?_
          intro st3 t2 _
          exact presR_ok (pres_addEqual st3 _ _)
    · exact presR_ok (Pres.refl st)
  · exact presR_fuel

theorem makeLambdaFallback_pres (n : Nat) (st : St) (body : Expr) (arg : Nat)
    (argType : Expr) (color : Nat) : presR st (makeLambdaFallback n st body arg argType color) := by
  unfold makeLambdaFallback
  split
  · exact presR_fuel
  · split
    · exact presR_ok (Pres.refl st)
    · refine presR_bind (presR_weaken (pres_allocVar st argType)
        (replaceScopeVariableF_pres true n _ _ _ _)) ?_
      intro st1 b' _
      exact presR_ok (Pres.refl st1)

theorem makeLambdaF_pres (n : Nat) (st : St) (body : Expr) (arg : Nat) (argType : Expr)
    (color : Nat) : presR st (makeLambdaF n st body arg argType color) := by
  unfold makeLambdaF
  split
  · split
    · split
      · exact presR_fuel
      · exact presR_ok (Pres.refl st)
      · exact makeLambdaFallback_pres n st _ arg argType color
    · exact makeLambdaFallback_pres n st _ arg argType color
  · exact makeLambdaFallback_pres n st _ arg argType color

theorem equalBinderF_pres (n : Nat) (st : St) (arg1 : Option Nat) (ann1 body1 : Expr)
    (arg2 : Option Nat) (ann2 body2 : Expr) :
    presR st (equalBinderF n st arg1 ann1 body1 arg2 ann2 body2) := by
  cases arg1 with
  | some v1 =>
    unfold equalBinderF
    dsimp only
    refine presR_bind (presR_weaken (((pres_addEqual st ann1 ann2).trans
      (pres_allocVar _ ann1)).trans (pres_markRenamedVariable _ _ _ _))
      (replaceScopeVariableF_pres true n _ _ _ _)) ?_
    intro st1 b1 _
    cases arg2 with
    | some v2 =>
      refine presR_bind (presR_weaken (pres_markRenamedVariable st1 _ _ _)
        (replaceScopeVariableF_pres true n _ _ _ _)) ?_
      intro st2 b2 _
      exact presR_ok (pres_addEqual st2 _ _)
    | none =>
      refine presR_bind (presR_ok (Pres.refl st1)) ?_
      intro st2 b2 _
      exact presR_ok (pres_addEqual st2 _ _)
  | none =>
    cases arg2 with
    | some v2 =>
      unfold equalBinderF
      dsimp only
      refine presR_bind (presR_ok ((pres_addEqual st ann1 ann2).trans
        (pres_allocVar _ ann2))) ?_
      intro st1 b1 _
      refine presR_bind (presR_weaken (pres_markRenamedVariable st1 _ _ _)
        (replaceScopeVariableF_pres true n _ _ _ _)) ?_
      intro st2 b2 _
      exact presR_ok (pres_addEqual st2 _ _)
    | none =>
      unfold equalBinderF
      dsimp only
      refine presR_bind (presR_ok (pres_addEqual st ann1 ann2)) ?_
      intro st1 b1 _
      refine presR_bind (presR_ok (Pres.refl st1)) ?_
      intro st2 b2 _
      exact presR_ok (pres_addEqual st2 _ _)

theorem equalEtaTailF_pres (n : Nat) (st : St) (a b : Expr) (etaOk : Bool) :
    presR st (equalEtaTailF n st a b etaOk) := by
  unfold equalEtaTailF
  split
  · split
    · split
      · refine presR_bind (getTypeTopF_pres n st _) ?_
        intro st4 tv _
        refine presR_bind (makeLambdaF_pres n st4 _ _ _ _) ?_
        intro st5 lam' _
        exact presR_ok (pres_addEqual st5 _ _)
      · exact presR_panic
    · exact presR_panic
  · split
    · exact equalBinderF_pres n st _ _ _ _ _ _
    · exact equalBinderF_pres n st _ _ _ _ _ _
    · exact presR_ok (Pres.refl st)

theorem equalRestCoreF_pres (n : Nat) (st : St) (e1 e2 : Expr) :
    presR st (equalRestCoreF n st e1 e2) := by
  unfold equalRestCoreF
  refine presR_bind ?_ ?_
  · split
    · exact equalCallCallF_pres n st _ _
    · exact presR_ok (Pres.refl st)
  · intro st1 cc _
    split
    · exact presR_ok (Pres.refl st1)
    · refine presR_bind ?_ ?_
      · split
        · split
          · exact presR_fuel
          · exact presR_ok (Pres.refl st1)
        · exact presR_ok (Pres.refl st1)
      · intro st2 eta1 _
        split
        · refine presR_bind ?_ ?_
          · split
            · exact presR_fuel
            · exact presR_ok (Pres.refl st2)
          · intro st3 eta2 _
            split
            · exact equalEtaTailF_pres n st3 _ _ _
            · exact equalEtaTailF_pres n st3 _ _ _
        · exact equalEtaTailF_pres n st2 _ _ _

theorem equalRestF_pres (n : Nat) (st : St) (e1 e2 : Expr) :
    presR st (equalRestF n st e1 e2) := by
  unfold equalRestF
  split
  · exact equalRestCoreF_pres n st _ _
  · exact equalRestCoreF_pres n st _ _

theorem option_isSome_false_eq_none {o : Option Expr} (h : ¬o.isSome = true) : o = none := by
  cases o with
  | none => rfl
  | some v => simp at h

theorem equalUnknownF_mono (n : Nat) (st : St) (i : Nat) (other : Expr)
    (hi : sigma st i = none) : monoR st (equalUnknownF n st i other) := by
  unfold equalUnknownF
  split
  · split
    · exact monoR_panic
    · rename_i j _ hne
      have hj := option_isSome_false_eq_none hne
      split
      · exact monoR_ok (Mono.monoRefl st)
      · split
        · exact monoR_assignUnknownF n st _ _ hj
        · exact monoR_assignUnknownF n st _ _ hi
  · exact monoR_assignUnknownF n st _ _ hi

theorem equalMainF_mono (n : Nat) (st : St) (e1 e2 : Expr) :
    monoR st (equalMainF n st e1 e2) := by
  unfold equalMainF
  split
  · split
    · exact monoR_panic
    · rename_i hne
      exact equalUnknownF_mono n st _ _ (option_isSome_false_eq_none hne)
  · split
    · split
      · exact monoR_ok (Mono.monoRefl st)
      · exact presR_mono (equalRestF_pres n st _ _)
    · split
      · exact monoR_ok (Mono.monoRefl st)
      · exact presR_mono (equalRestF_pres n st _ _)
    · exact presR_mono (equalRestF_pres n st _ _)

/-- `evaluateEqualConstraint` is write-once: its only value write targets an
unknown it has just checked to be unset. -/
theorem evaluateEqualConstraintF_mono (n : Nat) (st : St) (e1 e2 : Expr) :
    monoR st (evaluateEqualConstraintF n st e1 e2) := by
  unfold evaluateEqualConstraintF
  split
  · exact equalMainF_mono n st _ _
  · exact equalMainF_mono n st _ _

theorem setUnknownF_mono (n : Nat) (st : St) (target : Nat) (value : Expr) :
    monoR st (setUnknownF n st target value) := by
  unfold setUnknownF
  split
  · exact monoR_fuel
  · exact monoR_ok (Mono.monoRefl st)
  · refine monoR_bind ?_ ?_
    · refine presR_mono ?_
      split
      · refine presR_bind (getTypeTopF_pres n st _) ?_
        intro st1 tv _
        exact presR_ok (pres_addEqual st1 _ _)
      · exact presR_ok (Pres.refl st)
    · intro st2 u _
      split
      · rename_i heq
        exact monoR_ok (mono_setUnkValue_unset st2 target value heq)
      · exact monoR_ok (pres_addEqual st2 _ _).mono

theorem evaluateConstraintF_mono (n : Nat) (st : St) (con : Constraint) :
    monoR st (evaluateConstraintF n st con) := by
  cases con with
  | equal e1 e2 =>
    simp only [evaluateConstraintF]
    refine monoR_bind (presR_mono ((evalF_pres_all n).1 st _)) ?_
    intro st1 ev1 _
    refine monoR_bind (presR_mono ((evalF_pres_all n).1 st1 _)) ?_
    intro st2 ev2 _
    refine monoR_bind (evaluateEqualConstraintF_mono n st2 _ _) ?_
    intro st3 r _
    split
    · exact monoR_ok (Mono.monoRefl st3)
    · refine monoR_bind (presR_mono (sameQF_pres n st3 _ _)) ?_
      intro st4 sq _
      split
      · exact monoR_ok (Mono.monoRefl st4)
      · split
        · exact monoR_ok (pres_addEqual st4 _ _).mono
        · exact monoR_ok (pres_addCon st4 _).mono
  | typeofC target i =>
    simp only [evaluateConstraintF]
    split
    · refine monoR_bind (presR_mono (getTypeTopF_pres n st _)) ?_
      intro st1 t _
      refine monoR_bind (setUnknownF_mono n st1 target t) ?_
      intro st2 b _
      split
      · exact monoR_ok (Mono.monoRefl st2)
      · exact monoR_ok (pres_addCon st2 _).mono
    · exact monoR_ok (pres_addCon st _).mono
  | fnTypeType target t1 t2 =>
    simp only [evaluateConstraintF]
    refine monoR_bind (presR_mono ((evalF_pres_all n).1 st _)) ?_
    intro st1 ev1 _
    refine monoR_bind (presR_mono ((evalF_pres_all n).1 st1 _)) ?_
    intro st2 ev2 _
    split
    · refine monoR_bind (setUnknownF_mono n st2 target _) ?_
      intro st3 b _
      split
      · exact monoR_ok (Mono.monoRefl st3)
      · exact monoR_ok (pres_addErrored st3 _).mono
    · exact monoR_ok (pres_addCon st2 _).mono
  | equalWithReplace target i reps =>
    simp only [evaluateConstraintF]
    split
    · refine monoR_bind (presR_mono (substTopF_pres true n st _ _)) ?_
      intro st1 r _
      refine monoR_bind (setUnknownF_mono n st1 target r) ?_
      intro st2 b _
      split
      · exact monoR_ok (Mono.monoRefl st2)
      · exact monoR_ok (pres_addErrored st2 _).mono
    · exact monoR_ok (pres_addCon st _).mono

theorem passF_mono (n : Nat) :
    ∀ cons st acc, monoR st (passF n cons st acc) := by
  intro cons
  induction cons with
  | nil => intro st acc; exact monoR_ok (Mono.monoRefl st)
  | cons c rest ih =>
    intro st acc
    refine monoR_bind (evaluateConstraintF_mono n st c) ?_
    intro st1 b _
    exact ih st1 _

theorem snapshotPassF_mono (n : Nat) (st : St) : monoR st (snapshotPassF n st) := by
  unfold snapshotPassF
  exact monoR_weaken (pres_of_same rfl rfl).mono (passF_mono n _ _ false)

theorem solverEvaluateF_mono : ∀ n st ret, monoR st (solverEvaluateF n st ret) := by
  intro n
  induction n with
  | zero => intro st ret; exact monoR_fuel
  | succ n ih =>
    intro st ret
    unfold solverEvaluateF
    refine monoR_bind (snapshotPassF_mono n st) ?_
    intro st2 prog _
    split
    · exact ih st2 true
    · exact monoR_ok (Mono.monoRefl st2)

theorem csolverEvaluateF_mono (n : Nat) (st : St) : monoR st (csolverEvaluateF n st) :=
  solverEvaluateF_mono n st false

/-! ## C1: the resolved-Unknown graph and its acyclicity -/

/-- One step of the resolved-value graph: `a` is a set Unknown whose value
contains `b` syntactically. -/
def edgeU (st : St) (a b : Nat) : Prop :=
  ∃ e, sigma st a = some e ∧ b ∈ unksIn e

/-- Reachability along resolved values. -/
def ReachesU (st : St) (a b : Nat) : Prop := Relation.ReflTransGen (edgeU st) a b

/-- The C1 invariant: no set Unknown occurs transitively in its own value
(following the `value` fields of resolved Unknowns never leads back). -/
def ValuesOk (st : St) : Prop :=
  ∀ u e, sigma st u = some e → ∀ w ∈ unksIn e, ¬ ReachesU st w u

theorem edgeU_congr {st st' : St} (h : ∀ i, sigma st' i = sigma st i) {a b : Nat} :
    edgeU st' a b ↔ edgeU st a b := by
  unfold edgeU
  rw [h a]

theorem reachesU_congr {st st' : St} (h : ∀ i, sigma st' i = sigma st i) {a b : Nat} :
    ReachesU st' a b ↔ ReachesU st a b :=
  ⟨Relation.ReflTransGen.mono (fun _ _ hxy => (edgeU_congr h).mp hxy),
   Relation.ReflTransGen.mono (fun _ _ hxy => (edgeU_congr h).mpr hxy)⟩

theorem valuesOk_congr {st st' : St} (h : ∀ i, sigma st' i = sigma st i) :
    ValuesOk st ↔ ValuesOk st' := by
  constructor
  · intro hv u e he w hw hr
    exact hv u e ((h u).symm.trans he) w hw ((reachesU_congr h).mp hr)
  · intro hv u e he w hw hr
    exact hv u e ((h u).trans he) w hw ((reachesU_congr h).mpr hr)

theorem listModify_oob {α : Type} (f : α → α) (k : Nat) (l : List α)
    (h : l.length ≤ k) : listModify f k l = l := by
  induction l generalizing k with
  | nil => cases k <;> rfl
  | cons a t ih =>
    cases k with
    | zero => exact absurd h (by simp)
    | succ k =>
      show a :: listModify f k t = a :: t
      rw [ih k (Nat.le_of_succ_le_succ h)]

theorem sigma_setUnkValue_eq (st : St) (u : Nat) (v : Expr)
    (h : u < st.unknowns.length) : sigma (st.setUnkValue u v) u = some v := by
  unfold sigma St.setUnkValue
  simp only [listModify_get, if_pos rfl]
  rw [List.getElem?_eq_getElem h]
  rfl

/-- Writing an unset Unknown whose new value cannot reach it back preserves
the acyclicity invariant. -/
theorem valuesOk_write (st : St) (u : Nat) (v : Expr)
    (hu : sigma st u = none)
    (hocc : ∀ w ∈ unksIn v, ¬ ReachesU st w u)
    (hok : ValuesOk st) : ValuesOk (st.setUnkValue u v) := by
  by_cases hb : u < st.unknowns.length
  · have hedge_new : ∀ a b, edgeU (st.setUnkValue u v) a b →
        (a ≠ u ∧ edgeU st a b) ∨ (a = u ∧ b ∈ unksIn v) := by
      intro a b hab
      rcases hab with ⟨e, he, hbm⟩
      by_cases hau : a = u
      · subst hau
        rw [sigma_setUnkValue_eq st a v hb] at he
        cases he
        exact Or.inr ⟨rfl, hbm⟩
      · exact Or.inl ⟨hau, ⟨e, (sigma_setUnkValue_ne st u v a hau).symm.trans he, hbm⟩⟩
    have hedge_old : ∀ a b, edgeU st a b → edgeU (st.setUnkValue u v) a b := by
      intro a b hab
      rcases hab with ⟨e, he, hbm⟩
      have hau : a ≠ u := by
        intro haeq
        rw [haeq, hu] at he
        cases he
      exact ⟨e, (sigma_setUnkValue_ne st u v a hau).trans he, hbm⟩
    have hnr : ∀ a, ReachesU (st.setUnkValue u v) a u → ReachesU st a u := by
      intro a h
      induction h using Relation.ReflTransGen.head_induction_on with
      | refl => exact Relation.ReflTransGen.refl
      | head hab hbc ih =>
        rcases hedge_new _ _ hab with ⟨hne, hab'⟩ | ⟨haeq, _⟩
        · exact Relation.ReflTransGen.head hab' ih
        · rw [haeq]
          exact Relation.ReflTransGen.refl
    have hA : ∀ a c, ReachesU (st.setUnkValue u v) a c →
        ReachesU st a c ∨
          (ReachesU st a u ∧ ∃ b, b ∈ unksIn v ∧ ReachesU (st.setUnkValue u v) b c) := by
      intro a c h
      induction h using Relation.ReflTransGen.head_induction_on with
      | refl => exact Or.inl Relation.ReflTransGen.refl
      | head hab hbc ih =>
        rcases hedge_new _ _ hab with ⟨hne, hab'⟩ | ⟨haeq, hbm⟩
        · rcases ih with hl | ⟨hup, b, hbv, hbc'⟩
          · exact Or.inl (Relation.ReflTransGen.head hab' hl)
          · exact Or.inr ⟨Relation.ReflTransGen.head hab' hup, b, hbv, hbc'⟩
        · rw [haeq]
          exact Or.inr ⟨Relation.ReflTransGen.refl, _, hbm, hbc⟩
    intro x e hxe w hw hr
    by_cases hx : x = u
    · subst hx
      rw [sigma_setUnkValue_eq st x v hb] at hxe
      cases hxe
      exact hocc w hw (hnr w hr)
    · have hxe' : sigma st x = some e := (sigma_setUnkValue_ne st u v x hx).symm.trans hxe
      rcases hA w x hr with hl | ⟨hwu, b, hbv, hbx⟩
      · exact hok x e hxe' w hw hl
      · have hxw : edgeU (st.setUnkValue u v) x w := ⟨e, hxe, hw⟩
        have hwu' : ReachesU (st.setUnkValue u v) w u :=
          Relation.ReflTransGen.mono hedge_old hwu
        have hbu : ReachesU (st.setUnkValue u v) b u :=
          Relation.ReflTransGen.trans hbx (Relation.ReflTransGen.head hxw hwu')
        exact hocc b hbv (hnr b hbu)
  · have hs : ∀ i, sigma (st.setUnkValue u v) i = sigma st i := by
      intro i
      refine sigma_unknowns_eq ?_ i
      exact listModify_oob _ u st.unknowns (Nat.le_of_not_lt hb)
    exact (valuesOk_congr hs).mp hok

/-- Soundness of the occurs check: a `freeQ` walk that completes without
firing the target predicate rules out every resolved-value path back to the
target. -/
theorem freeQ_occurs_sound (st : St) (target : Nat) (htarget : sigma st target = none) :
    ∀ n e, freeQF st (fun x => x == Expr.unk target) n e = some true →
      ∀ w ∈ unksIn e, ¬ ReachesU st w target := by
  intro n
  induction n with
  | zero =>
    intro e h
    simp [freeQF] at h
  | succ n ih =>
    intro e h w hw hr
    cases e with
    | unk i =>
      simp only [unksIn, List.mem_singleton] at hw
      subst hw
      rw [freeQF] at h
      cases hsi : sigma st w with
      | some v =>
        rw [hsi] at h
        rcases Relation.ReflTransGen.cases_head hr with heq | ⟨b, hib, hbt⟩
        · rw [heq] at hsi
          rw [htarget] at hsi
          cases hsi
        · rcases hib with ⟨e2, he2, hbm⟩
          rw [hsi] at he2
          cases he2
          exact ih v h b hbm hbt
      | none =>
        rw [hsi] at h
        simp only [Option.some.injEq, Bool.not_eq_eq_eq_not, Bool.not_true, beq_eq_false_iff_ne,
          ne_eq, Expr.unk.injEq] at h
        rcases Relation.ReflTransGen.cases_head hr with heq | ⟨b, hib, hbt⟩
        · exact h heq
        · rcases hib with ⟨e2, he2, hbm⟩
          rw [hsi] at he2
          cases he2
    | call f a c =>
      simp only [freeQF] at h
      cases hf : freeQF st (fun x => x == Expr.unk target) n f with
      | none => rw [hf] at h; cases h
      | some bf =>
        rw [hf] at h
        cases bf with
        | false => simp at h
        | true =>
          simp only [Option.some_bind, eq_self_iff_true, if_true] at h
          simp only [unksIn, List.mem_append] at hw
          rcases hw with hwf | hwa
          · exact ih f hf w hwf hr
          · exact ih a h w hwa hr
    | fnType arg i o c =>
      simp only [freeQF] at h
      cases hf : freeQF st (fun x => x == Expr.unk target) n i with
      | none => rw [hf] at h; cases h
      | some bf =>
        rw [hf] at h
        cases bf with
        | false => simp at h
        | true =>
          simp only [Option.some_bind, eq_self_iff_true, if_true] at h
          simp only [unksIn, List.mem_append] at hw
          rcases hw with hwf | hwa
          · exact ih i hf w hwf hr
          · exact ih o h w hwa hr
    | lam arg t b c =>
      simp only [freeQF] at h
      cases hf : freeQF st (fun x => x == Expr.unk target) n t with
      | none => rw [hf] at h; cases h
      | some bf =>
        rw [hf] at h
        cases bf with
        | false => simp at h
        | true =>
          simp only [Option.some_bind, eq_self_iff_true, if_true] at h
          simp only [unksIn, List.mem_append] at hw
          rcases hw with hwf | hwa
          · exact ih t hf w hwf hr
          · exact ih b h w hwa hr
    | sym i => simp [unksIn] at hw
    | var i => simp [unksIn] at hw
    | str v => simp [unksIn] at hw
    | num il v => simp [unksIn] at hw

theorem occursCheckF_sound (st : St) (n : Nat) (target : Nat) (v : Expr)
    (htarget : sigma st target = none)
    (h : occursCheckF st n target v = some true) :
    ∀ w ∈ unksIn v, ¬ ReachesU st w target :=
  freeQ_occurs_sound st target htarget n v h

/-! ## Invariant preservation through the two solvers -/

/-- A `Res` computation whose successful outcome preserves the acyclicity
invariant. -/
def vokR {α : Type} (st : St) (r : Res α) : Prop :=
  ∀ st' a, r = Res.ok st' a → ValuesOk st → ValuesOk st'

theorem vokR_ok {α : Type} {st st1 : St} {a : α} (h : ValuesOk st → ValuesOk st1) :
    vokR st (Res.ok st1 a) := by
  intro st' b hb
  cases hb
  exact h

theorem vokR_ok_pres {α : Type} {st st1 : St} {a : α} (h : Pres st st1) :
    vokR st (Res.ok st1 a) :=
  vokR_ok (fun hv => (valuesOk_congr h.1).mp hv)

theorem vokR_fuel {α : Type} {st : St} : vokR st (Res.fuel : Res α) := by
  intro st' a h
  cases h

theorem vokR_panic {α : Type} {st : St} : vokR st (Res.panic : Res α) := by
  intro st' a h
  cases h

theorem vokR_bind {α β : Type} {st : St} {m : Res α} {f : St → α → Res β}
    (h1 : vokR st m) (h2 : ∀ st1 a, m = Res.ok st1 a → vokR st1 (f st1 a)) :
    vokR st (m.bind f) := by
  intro st' b hb hv
  cases m with
  | ok st1 a =>
    simp only [Res.bind] at hb
    exact h2 st1 a rfl st' b hb (h1 st1 a rfl hv)
  | fuel => cases hb
  | panic => cases hb

theorem presR_vok {α : Type} {st : St} {m : Res α} (h : presR st m) : vokR st m := by
  intro st' a ha hv
  exact (valuesOk_congr (h st' a ha).1).mp hv

theorem vokR_weaken {α : Type} {st0 st1 : St} {m : Res α} (h0 : Pres st0 st1)
    (h : vokR st1 m) : vokR st0 m := by
  intro st' a ha hv
  exact h st' a ha ((valuesOk_congr h0.1).mp hv)

theorem vokR_assignUnknownF (n : Nat) (st : St) (target : Nat) (value : Expr)
    (h : sigma st target = none) : vokR st (assignUnknownF n st target value) := by
  unfold assignUnknownF
  cases hocc : occursCheckF st n target value with
  | none => exact vokR_fuel
  | some b =>
    cases b with
    | false => exact vokR_ok (fun hv => hv)
    | true =>
      refine vokR_bind (presR_vok ?_) ?_
      · split
        · refine presR_bind (getTypeTopF_pres n st _) ?_
          intro st1 tv _
          exact presR_ok (pres_addEqual st1 _ _)
        · exact presR_ok (Pres.refl st)
      · intro st2 u hok
        have hp : Pres st st2 := by
          revert hok
          split
          · intro hok
            refine presR_bind (getTypeTopF_pres n st _) ?_ st2 u hok
            intro st1 tv _
            exact presR_ok (pres_addEqual st1 _ _)
          · intro hok
            cases hok
            exact Pres.refl st
        refine vokR_ok (fun hv2 => valuesOk_write st2 target value ?_ ?_ hv2)
        · rw [hp.1 target]
          exact h
        · intro w hw hr
          refine occursCheckF_sound st n target value h hocc w hw ?_
          exact (reachesU_congr hp.1).mp hr

theorem vokR_setUnknownF (n : Nat) (st : St) (target : Nat) (value : Expr) :
    vokR st (setUnknownF n st target value) := by
  unfold setUnknownF
  cases hocc : occursCheckF st n target value with
  | none => exact vokR_fuel
  | some b =>
    cases b with
    | false => exact vokR_ok (fun hv => hv)
    | true =>
      refine vokR_bind (presR_vok ?_) ?_
      · split
        · refine presR_bind (getTypeTopF_pres n st _) ?_
          intro st1 tv _
          exact presR_ok (pres_addEqual st1 _ _)
        · exact presR_ok (Pres.refl st)
      · intro st2 u hok
        have hp : Pres st st2 := by
          revert hok
          split
          · intro hok
            refine presR_bind (getTypeTopF_pres n st _) ?_ st2 u hok
            intro st1 tv _
            exact presR_ok (pres_addEqual st1 _ _)
          · intro hok
            cases hok
            exact Pres.refl st
        cases hset : sigma st2 target with
        | none =>
          refine vokR_ok (fun hv2 => valuesOk_write st2 target value hset ?_ hv2)
          intro w hw hr
          have hsu : sigma st target = none := (hp.1 target).symm.trans hset
          refine occursCheckF_sound st n target value hsu hocc w hw ?_
          exact (reachesU_congr hp.1).mp hr
        | some old => exact vokR_ok_pres (pres_addEqual st2 _ _)

theorem vokR_equalUnknownF (n : Nat) (st : St) (i : Nat) (other : Expr)
    (hi : sigma st i = none) : vokR st (equalUnknownF n st i other) := by
  unfold equalUnknownF
  split
  · split
    · exact vokR_panic
    · rename_i j _ hne
      have hj := option_isSome_false_eq_none hne
      split
      · exact vokR_ok (fun hv => hv)
      · split
        · exact vokR_assignUnknownF n st _ _ hj
        · exact vokR_assignUnknownF n st _ _ hi
  · exact vokR_assignUnknownF n st _ _ hi

theorem vokR_equalMainF (n : Nat) (st : St) (e1 e2 : Expr) :
    vokR st (equalMainF n st e1 e2) := by
  unfold equalMainF
  split
  · split
    · exact vokR_panic
    · rename_i hne
      exact vokR_equalUnknownF n st _ _ (option_isSome_false_eq_none hne)
  · split
    · split
      · exact vokR_ok (fun hv => hv)
      · exact presR_vok (equalRestF_pres n st _ _)
    · split
      · exact vokR_ok (fun hv => hv)
      · exact presR_vok (equalRestF_pres n st _ _)
    · exact presR_vok (equalRestF_pres n st _ _)

theorem vokR_evaluateEqualConstraintF (n : Nat) (st : St) (e1 e2 : Expr) :
    vokR st (evaluateEqualConstraintF n st e1 e2) := by
  unfold evaluateEqualConstraintF
  split
  · exact vokR_equalMainF n st _ _
  · exact vokR_equalMainF n st _ _

theorem vokR_evaluateConstraintF (n : Nat) (st : St) (con : Constraint) :
    vokR st (evaluateConstraintF n st con) := by
  cases con with
  | equal e1 e2 =>
    simp only [evaluateConstraintF]
    refine vokR_bind (presR_vok ((evalF_pres_all n).1 st _)) ?_
    intro st1 ev1 _
    refine vokR_bind (presR_vok ((evalF_pres_all n).1 st1 _)) ?_
    intro st2 ev2 _
    refine vokR_bind (vokR_evaluateEqualConstraintF n st2 _ _) ?_
    intro st3 r _
    split
    · exact vokR_ok (fun hv => hv)
    · refine vokR_bind (presR_vok (sameQF_pres n st3 _ _)) ?_
      intro st4 sq _
      split
      · exact vokR_ok (fun hv => hv)
      · split
        · exact vokR_ok_pres (pres_addEqual st4 _ _)
        · exact vokR_ok_pres (pres_addCon st4 _)
  | typeofC target i =>
    simp only [evaluateConstraintF]
    split
    · refine vokR_bind (presR_vok (getTypeTopF_pres n st _)) ?_
      intro st1 t _
      refine vokR_bind (vokR_setUnknownF n st1 target t) ?_
      intro st2 b _
      split
      · exact vokR_ok (fun hv => hv)
      · exact vokR_ok_pres (pres_addCon st2 _)
    · exact vokR_ok_pres (pres_addCon st _)
  | fnTypeType target t1 t2 =>
    simp only [evaluateConstraintF]
    refine vokR_bind (presR_vok ((evalF_pres_all n).1 st _)) ?_
    intro st1 ev1 _
    refine vokR_bind (presR_vok ((evalF_pres_all n).1 st1 _)) ?_
    intro st2 ev2 _
    split
    · refine vokR_bind (vokR_setUnknownF n st2 target _) ?_
      intro st3 b _
      split
      · exact vokR_ok (fun hv => hv)
      · exact vokR_ok_pres (pres_addErrored st3 _)
    · exact vokR_ok_pres (pres_addCon st2 _)
  | equalWithReplace target i reps =>
    simp only [evaluateConstraintF]
    split
    · refine vokR_bind (presR_vok (substTopF_pres true n st _ _)) ?_
      intro st1 r _
      refine vokR_bind (vokR_setUnknownF n st1 target r) ?_
      intro st2 b _
      split
      · exact vokR_ok (fun hv => hv)
      · exact vokR_ok_pres (pres_addErrored st2 _)
    · exact vokR_ok_pres (pres_addCon st _)

theorem vokR_passF (n : Nat) : ∀ cons st acc, vokR st (passF n cons st acc) := by
  intro cons
  induction cons with
  | nil =>
    intro st acc
    exact vokR_ok (fun hv => hv)
  | cons c rest ih =>
    intro st acc
    refine vokR_bind (vokR_evaluateConstraintF n st c) ?_
    intro st1 b _
    exact ih st1 _

theorem vokR_snapshotPassF (n : Nat) (st : St) : vokR st (snapshotPassF n st) := by
  unfold snapshotPassF
  exact vokR_weaken (pres_of_same rfl rfl) (vokR_passF n _ _ false)

theorem vokR_solverEvaluateF : ∀ n st ret, vokR st (solverEvaluateF n st ret) := by
  intro n
  induction n with
  | zero =>
    intro st ret
    exact vokR_fuel
  | succ n ih =>
    intro st ret
    unfold solverEvaluateF
    refine vokR_bind (vokR_snapshotPassF n st) ?_
    intro st2 prog _
    split
    · exact ih st2 true
    · exact vokR_ok (fun hv => hv)

theorem vokR_csolverEvaluateF (n : Nat) (st : St) : vokR st (csolverEvaluateF n st) :=
  vokR_solverEvaluateF n st false

/-! ## HIR solver: state-effect lemmas for the poll actions -/

theorem pres_symListModify (st : St) (f : SymData → SymData) (s : Nat)
    (hf : ∀ d, (f d).value = d.value) :
    Pres st { st with symbols := listModify f s st.symbols } :=
  ⟨fun _ => rfl, symValue_listModify_preserve st f s hf⟩

theorem mono_setSymValue_unset (st : St) (s : Nat) (v : Expr)
    (h : symValue st s = none) :
    Mono st { st with symbols := listModify (fun sd => { sd with value := some v }) s st.symbols } := by
  constructor
  · intro i w hw
    exact hw
  · intro i w hw
    by_cases his : i = s
    · subst his
      rw [h] at hw
      cases hw
    · show ((listModify _ s st.symbols)[i]?).bind _ = some w
      rw [listModify_get]
      simp only [his, if_false]
      exact hw

theorem pollCallLoopF_pres :
    ∀ n st fnE ftE color isPat, presR st (pollCallLoopF n st fnE ftE color isPat) := by
  intro n
  induction n with
  | zero =>
    intro st fnE ftE color isPat
    exact presR_fuel
  | succ n ih =>
    intro st fnE ftE color isPat
    cases ftE
    case fnType a it ot fc =>
      simp only [pollCallLoopF]
      split
      · refine presR_bind (presR_weaken (pres_makeUnknownF st _ _) (getTypeTopF_pres n _ _)) ?_
        intro st1 ft _
        exact ih st1 _ _ _ _
      · exact presR_ok (Pres.refl st)
    all_goals exact presR_ok (Pres.refl st)

theorem pollCallFinishF_pres (n : Nat) (st : St) (idx argReg color : Nat) (tmpFn : Expr)
    (retSoFar : PollR) : presR st (pollCallFinishF n st idx argReg color tmpFn retSoFar) := by
  unfold pollCallFinishF
  refine presR_bind (getTypeTopF_pres n st _) ?_
  intro st1 ft0 _
  split
  · split
    · split
      · exact presR_ok (pres_setSlotType st1 _ _)
      · exact presR_ok (Pres.refl st1)
    · refine presR_bind (getTypeTopF_pres n st1 _) ?_
      intro st2 ta _
      exact presR_ok ((pres_addEqual st2 _ _).trans (pres_setSlotValue _ _ _))
  · exact presR_panic

theorem pollCallF_pres (n : Nat) (st : St) (idx fnReg argReg color : Nat) (isPat : Bool)
    (tmp : Option Expr) : presR st (pollCallF n st idx fnReg argReg color isPat tmp) := by
  unfold pollCallF
  split
  · exact pollCallFinishF_pres n st idx argReg color _ _
  · split
    · exact presR_ok (Pres.refl st)
    · dsimp only
      refine presR_bind (getTypeTopF_pres n st _) ?_
      intro st1 ft0 _
      dsimp only
      split
      · exact presR_fuel
      · exact presR_ok (Pres.refl st1)
      · refine presR_bind (pollCallLoopF_pres n st1 _ _ _ _) ?_
        intro st2 tmpFn _
        exact pollCallFinishF_pres n st2 idx argReg color tmpFn _

theorem pollFnTypeF_pres (st : St) (idx inReg : Nat) (argReg : Option Nat) (outReg color : Nat) :
    presR st (pollFnTypeF st idx inReg argReg outReg color) := by
  unfold pollFnTypeF
  split
  · refine presR_bind ?_ ?_
    · split
      · split
        · exact presR_ok (Pres.refl st)
        · split
          · exact presR_ok (Pres.refl st)
          · exact presR_panic
      · exact presR_ok (Pres.refl st)
    · intro st1 r _
      split
      · exact presR_ok (Pres.refl st1)
      · exact presR_ok (pres_setSlotValue st1 _ _)
      · exact presR_ok (pres_setSlotValue st1 _ _)
  · exact presR_ok (Pres.refl st)

theorem pollMemberAccessF_pres (st : St) (idx lhsReg : Nat) (name : String) :
    presR st (pollMemberAccessF st idx lhsReg name) := by
  unfold pollMemberAccessF
  split
  · exact presR_ok (Pres.refl st)
  · split
    · split
      · exact presR_panic
      · split
        · exact presR_ok (pres_setSlotValue st _ _)
        · exact presR_panic
    · exact presR_panic

theorem pollLambdaLoopF_pres :
    ∀ n st ty color acc, presR st (pollLambdaLoopF n st ty color acc) := by
  intro n
  induction n with
  | zero =>
    intro st ty color acc
    exact presR_fuel
  | succ n ih =>
    intro st ty color acc
    cases ty
    case fnType tyArg it ot tc =>
      simp only [pollLambdaLoopF]
      split
      · refine presR_bind ?_ ?_
        · split
          · exact presR_weaken (pres_allocVar st _) (replaceScopeVariableF_pres true n _ _ _ _)
          · exact presR_ok (pres_allocVar st _)
        · intro st1 ot' _
          split
          · exact ih st1 _ _ _
          · exact presR_panic
      · exact presR_ok (Pres.refl st)
    all_goals exact presR_ok (Pres.refl st)

theorem pollLambdaStartF_pres (n : Nat) (st : St) (idx : Nat) (argReg argTypeReg : Option Nat)
    (color : Nat) : presR st (pollLambdaStartF n st idx argReg argTypeReg color) := by
  unfold pollLambdaStartF
  refine presR_bind ?_ ?_
  · split
    · split
      · exact presR_ok (Pres.refl st)
      · split
        · exact presR_ok (Pres.refl st)
        · exact presR_panic
    · exact presR_ok (Pres.refl st)
  · intro st1 argR _
    split
    · exact presR_ok (Pres.refl st1)
    · refine presR_bind ?_ ?_
      · split
        · split
          · exact presR_ok (Pres.refl st1)
          · exact presR_ok (Pres.refl st1)
        · exact presR_ok (Pres.refl st1)
      · intro st2 atR _
        split
        · exact presR_ok (Pres.refl st2)
        · split
          · exact presR_ok (Pres.refl st2)
          · split
            · split
              · exact presR_fuel
              · exact presR_ok (Pres.refl st2)
              · refine presR_bind (pollLambdaLoopF_pres n st2 _ _ _) ?_
                intro st3 p _
                dsimp only
                split
                · split
                  · refine presR_bind ?_ ?_
                    · split
                      · exact replaceScopeVariableF_pres true n st3 _ _ _
                      · exact presR_ok (Pres.refl st3)
                    · intro st4 bodyTy _
                      exact presR_ok (Pres.refl st4)
                  · refine presR_bind
                      (presR_weaken (pres_allocVar st3 _)
                        (replaceScopeVariableF_pres true n _ _ _ _)) ?_
                    intro st4 bodyTy _
                    exact presR_ok (Pres.refl st4)
                  · exact presR_ok (Pres.refl st3)
                · exact presR_panic
            · exact presR_ok (Pres.refl st2)

theorem pollLambdaFinishF_pres (n : Nat) (st : St) (idx bodyReg : Nat)
    (args : List (Option Nat × Expr × Nat)) (bodyType : Expr) (retSoFar : PollR) :
    presR st (pollLambdaFinishF n st idx bodyReg args bodyType retSoFar) := by
  unfold pollLambdaFinishF
  split
  · split
    · exact presR_ok (pres_setSlotType st _ _)
    · exact presR_ok (Pres.refl st)
  · refine presR_bind (getTypeTopF_pres n st _) ?_
    intro st1 tb _
    dsimp only
    exact presR_ok ((pres_addEqual st1 _ _).trans (pres_setSlotValue _ _ _))

theorem pollLambdaF_pres (n : Nat) (st : St) (idx : Nat) (argReg : Option Nat) (bodyReg : Nat)
    (color : Nat) (argTypeReg : Option Nat) (args : List (Option Nat × Expr × Nat))
    (bodyType : Option Expr) :
    presR st (pollLambdaF n st idx argReg bodyReg color argTypeReg args bodyType) := by
  unfold pollLambdaF
  split
  · exact pollLambdaFinishF_pres n st idx bodyReg _ _ _
  · refine presR_bind (pollLambdaStartF_pres n st idx argReg argTypeReg color) ?_
    intro st1 r _
    split
    · exact presR_ok (Pres.refl st1)
    · exact pollLambdaFinishF_pres n st1 idx bodyReg _ _ _

theorem vokR_ok_sigma {α : Type} {st st1 : St} {a : α}
    (h : ∀ i, sigma st1 i = sigma st i) : vokR st (Res.ok st1 a) :=
  vokR_ok (fun hv => (valuesOk_congr h).mp hv)

theorem vokR_weaken_sigma {α : Type} {st0 st1 : St} {m : Res α}
    (h0 : ∀ i, sigma st1 i = sigma st0 i) (h : vokR st1 m) : vokR st0 m := by
  intro st' a ha hv
  exact h st' a ha ((valuesOk_congr h0).mp hv)

theorem convertLhsF_mono : ∀ n st e, monoR st (convertLhsF n st e) := by
  intro n
  induction n with
  | zero =>
    intro st e
    exact monoR_fuel
  | succ n ih =>
    intro st e
    cases e with
    | unk i =>
      rw [convertLhsF]
      cases hsi : sigma st i with
      | some v => exact ih st v
      | none =>
        dsimp only
        split
        · split
          · exact monoR_panic
          · refine monoR_ok (Mono.monoTrans (pres_allocVar st _).mono
              (mono_setUnkValue_unset _ i _ ?_))
            rw [(pres_allocVar st _).1 i]
            exact hsi
        · exact monoR_ok (Mono.monoRefl st)
    | call f a c =>
      rw [convertLhsF]
      refine monoR_bind (ih st f) ?_
      intro st1 f' _
      refine monoR_bind (ih st1 a) ?_
      intro st2 a' _
      exact monoR_ok (Mono.monoRefl st2)
    | fnType arg i o c =>
      rw [convertLhsF]
      refine monoR_bind (ih st i) ?_
      intro st1 i' _
      refine monoR_bind (ih st1 o) ?_
      intro st2 o' _
      exact monoR_ok (Mono.monoRefl st2)
    | lam arg t b c =>
      rw [convertLhsF]
      refine monoR_bind (ih st t) ?_
      intro st1 t' _
      refine monoR_bind (ih st1 b) ?_
      intro st2 b' _
      exact monoR_ok (Mono.monoRefl st2)
    | sym j => exact monoR_ok (Mono.monoRefl st)
    | var j => exact monoR_ok (Mono.monoRefl st)
    | str v => exact monoR_ok (Mono.monoRefl st)
    | num il v => exact monoR_ok (Mono.monoRefl st)

theorem convertLhsF_vok : ∀ n st e, vokR st (convertLhsF n st e) := by
  intro n
  induction n with
  | zero =>
    intro st e
    exact vokR_fuel
  | succ n ih =>
    intro st e
    cases e with
    | unk i =>
      rw [convertLhsF]
      cases hsi : sigma st i with
      | some v => exact ih st v
      | none =>
        dsimp only
        split
        · split
          · exact vokR_panic
          · refine vokR_ok (fun hv => valuesOk_write _ i _ ?_ ?_
              ((valuesOk_congr (pres_allocVar st _).1).mp hv))
            · rw [(pres_allocVar st _).1 i]
              exact hsi
            · intro w hw
              simp [unksIn] at hw
        · exact vokR_ok (fun hv => hv)
    | call f a c =>
      rw [convertLhsF]
      refine vokR_bind (ih st f) ?_
      intro st1 f' _
      refine vokR_bind (ih st1 a) ?_
      intro st2 a' _
      exact vokR_ok (fun hv => hv)
    | fnType arg i o c =>
      rw [convertLhsF]
      refine vokR_bind (ih st i) ?_
      intro st1 i' _
      refine vokR_bind (ih st1 o) ?_
      intro st2 o' _
      exact vokR_ok (fun hv => hv)
    | lam arg t b c =>
      rw [convertLhsF]
      refine vokR_bind (ih st t) ?_
      intro st1 t' _
      refine vokR_bind (ih st1 b) ?_
      intro st2 b' _
      exact vokR_ok (fun hv => hv)
    | sym j => exact vokR_ok (fun hv => hv)
    | var j => exact vokR_ok (fun hv => hv)
    | str v => exact vokR_ok (fun hv => hv)
    | num il v => exact vokR_ok (fun hv => hv)

theorem convertRuleF_mono (n : Nat) (st : St) (lhs rhs : Expr) :
    monoR st (convertRuleF n st lhs rhs) := by
  unfold convertRuleF
  refine monoR_bind (convertLhsF_mono n st lhs) ?_
  intro st1 l _
  split
  · exact monoR_fuel
  · exact monoR_ok (Mono.monoRefl st1)

theorem convertRuleF_vok (n : Nat) (st : St) (lhs rhs : Expr) :
    vokR st (convertRuleF n st lhs rhs) := by
  unfold convertRuleF
  refine vokR_bind (convertLhsF_vok n st lhs) ?_
  intro st1 l _
  split
  · exact vokR_fuel
  · exact vokR_ok (fun hv => hv)

theorem pollSymbolRuleF_mono (n : Nat) (st : St) (idx symReg lhsReg rhsReg : Nat)
    (isUpValue : Bool) (hasTC : Bool) :
    monoR st (pollSymbolRuleF n st idx symReg lhsReg rhsReg isUpValue hasTC) := by
  unfold pollSymbolRuleF
  split
  · split
    · split
      · split
        · refine monoR_bind (presR_mono (getTypeTopF_pres n st _)) ?_
          intro st1 tl _
          exact monoR_ok (pres_setSlotType st1 _ _).mono
        · exact monoR_ok (Mono.monoRefl st)
      · split
        · refine monoR_bind (presR_mono (getTypeTopF_pres n st _)) ?_
          intro st1 tl _
          refine monoR_bind (presR_mono (getTypeTopF_pres n st1 _)) ?_
          intro st2 tr _
          exact monoR_ok (pres_addEqual st2 _ _).mono
        · split
          · exact monoR_ok (Mono.monoRefl st)
          · refine monoR_bind (convertRuleF_mono n st _ _) ?_
            intro st1 rule _
            dsimp only
            refine monoR_ok (Mono.monoTrans (pres_symListModify st1 _ _ ?_).mono
              (pres_setSlotValue _ _ _).mono)
            intro d
            cases isUpValue <;> rfl
    · exact monoR_panic
  · exact monoR_ok (Mono.monoRefl st)

theorem pollSymbolRuleF_vok (n : Nat) (st : St) (idx symReg lhsReg rhsReg : Nat)
    (isUpValue : Bool) (hasTC : Bool) :
    vokR st (pollSymbolRuleF n st idx symReg lhsReg rhsReg isUpValue hasTC) := by
  unfold pollSymbolRuleF
  split
  · split
    · split
      · split
        · refine vokR_bind (presR_vok (getTypeTopF_pres n st _)) ?_
          intro st1 tl _
          exact vokR_ok_pres (pres_setSlotType st1 _ _)
        · exact vokR_ok (fun hv => hv)
      · split
        · refine vokR_bind (presR_vok (getTypeTopF_pres n st _)) ?_
          intro st1 tl _
          refine vokR_bind (presR_vok (getTypeTopF_pres n st1 _)) ?_
          intro st2 tr _
          exact vokR_ok_pres (pres_addEqual st2 _ _)
        · split
          · exact vokR_ok (fun hv => hv)
          · refine vokR_bind (convertRuleF_vok n st _ _) ?_
            intro st1 rule _
            dsimp only
            exact vokR_ok_sigma (fun i => rfl)
    · exact vokR_panic
  · exact vokR_ok (fun hv => hv)

theorem pollActionF_mono (n : Nat) (regs : List HIRData) (idx : Nat) (ast : ActSt) (st : St) :
    monoR st (pollActionF n regs idx ast st) := by
  unfold pollActionF
  split
  · exact monoR_panic
  · rename_i reg hreg
    cases reg with
    | root => exact monoR_ok (pres_setSlotValue st _ _).mono
    | exprH e ty => exact monoR_ok (pres_setSlotValue st _ _).mono
    | number v =>
      dsimp only
      split
      · exact monoR_ok (pres_setSlotValue st _ _).mono
      · split
        · exact monoR_ok (pres_setSlotValue st _ _).mono
        · exact monoR_ok (Mono.monoRefl st)
    | lambdaH argReg bodyReg color argTypeReg =>
      cases ast with
      | lambdaA args bodyTy => exact presR_mono (pollLambdaF_pres n st idx _ _ _ _ _ _)
      | plain => exact presR_mono (pollLambdaF_pres n st idx _ _ _ _ _ _)
      | callA tmp => exact presR_mono (pollLambdaF_pres n st idx _ _ _ _ _ _)
      | ruleA hTC => exact presR_mono (pollLambdaF_pres n st idx _ _ _ _ _ _)
    | callH fnReg argReg color isPat =>
      cases ast with
      | callA tmp => exact presR_mono (pollCallF_pres n st idx _ _ _ _ _)
      | plain => exact presR_mono (pollCallF_pres n st idx _ _ _ _ _)
      | lambdaA args bodyTy => exact presR_mono (pollCallF_pres n st idx _ _ _ _ _)
      | ruleA hTC => exact presR_mono (pollCallF_pres n st idx _ _ _ _ _)
    | fnTypeH inReg argReg outReg color =>
      exact presR_mono (pollFnTypeF_pres st idx _ _ _ _)
    | memberAccess lhsReg name =>
      exact presR_mono (pollMemberAccessF_pres st idx _ _)
    | symbolRule symReg lhsReg rhsReg isUp =>
      cases ast with
      | ruleA hTC => exact pollSymbolRuleF_mono n st idx _ _ _ _ _
      | plain => exact pollSymbolRuleF_mono n st idx _ _ _ _ _
      | callA tmp => exact pollSymbolRuleF_mono n st idx _ _ _ _ _
      | lambdaA args bodyTy => exact pollSymbolRuleF_mono n st idx _ _ _ _ _
    | variableH typeReg =>
      dsimp only
      refine monoR_bind (presR_mono ?_) ?_
      · split
        · split
          · exact presR_ok (Pres.refl st)
          · refine presR_bind (getTypeTopF_pres n st _) ?_
            intro st1 tt _
            exact presR_ok ((pres_makeUnknownUniverseF st1).trans (pres_addEqual _ _ _))
        · exact presR_ok (pres_makeUnknownTypeF st)
      · intro st1 ty _
        split
        · exact monoR_ok (Mono.monoRefl st1)
        · exact monoR_ok ((pres_allocVar st1 _).trans (pres_setSlotValue _ _ _)).mono
    | unknownH typeReg =>
      dsimp only
      refine monoR_bind (presR_mono ?_) ?_
      · split
        · split
          · exact presR_ok (Pres.refl st)
          · refine presR_bind (getTypeTopF_pres n st _) ?_
            intro st1 tt _
            exact presR_ok ((pres_makeUnknownF st1 _ false).trans (pres_addEqual _ _ _))
        · exact presR_ok (pres_makeUnknownTypeF st)
      · intro st1 ty _
        split
        · exact monoR_ok (Mono.monoRefl st1)
        · exact monoR_ok ((pres_makeUnknownF st1 _ false).trans (pres_setSlotValue _ _ _)).mono
    | symbolH name parentReg flags =>
      dsimp only
      refine monoR_bind (presR_mono ?_) ?_
      · split
        · split
          · exact presR_ok (Pres.refl st)
          · split
            · exact presR_ok (Pres.refl st)
            · exact presR_panic
        · exact presR_ok (Pres.refl st)
      · intro st1 par _
        split
        · exact monoR_ok (Mono.monoRefl st1)
        · split
          · refine monoR_ok (Pres.mono ?_)
            exact Pres.trans (pres_makeUnknownTypeF st1)
              (Pres.trans (pres_allocSym _ _ (by rfl))
                (Pres.trans (pres_setParentF _ _) (pres_setSlotValue _ _ _)))
          · refine monoR_ok (Pres.mono ?_)
            exact Pres.trans (pres_allocSym st1 _ (by rfl))
              (Pres.trans (pres_setParentF _ _) (pres_setSlotValue _ _ _))
    | symbolType symReg typeReg =>
      cases ast <;>
      (dsimp only
       refine presR_mono ?_
       split
       · split
         · split
           · exact presR_panic
           · split
             · exact presR_ok (Pres.refl st)
             · refine presR_bind (getTypeTopF_pres n st _) ?_
               intro st1 tt _
               split
               · exact presR_ok (Pres.trans (pres_makeUnknownUniverseF st1)
                   (Pres.trans (pres_addEqual _ _ _)
                     (Pres.trans (pres_symListModify _ _ _ (by intro d; rfl))
                       (pres_setSlotValue _ _ _))))
               · exact presR_ok (Pres.trans (pres_makeUnknownUniverseF st1)
                   (Pres.trans (pres_addEqual _ _ _)
                     (Pres.trans (pres_addEqual _ _ _) (pres_setSlotValue _ _ _))))
         · exact presR_panic
       · exact presR_ok (Pres.refl st))
    | symbolAssign symReg valReg =>
      cases ast <;>
      (dsimp only
       cases hs1 : st.slotValue symReg with
       | none => exact monoR_ok (Mono.monoRefl st)
       | some symV =>
         cases hs2 : st.slotValue valReg with
         | none => exact monoR_ok (Mono.monoRefl st)
         | some v =>
           cases symV with
           | sym s =>
             dsimp only
             cases hd : st.symbols[s]? with
             | none => exact monoR_panic
             | some d =>
               dsimp only
               by_cases hflag : (d.flags &&& 2 == 0) = true
               · rw [if_pos hflag]
                 exact monoR_ok (Mono.monoRefl st)
               · rw [if_neg hflag]
                 by_cases hval : d.value.isSome = true
                 · rw [if_pos hval]
                   exact monoR_panic
                 · rw [if_neg hval]
                   refine monoR_weaken (mono_setSymValue_unset st s v ?_) ?_
                   · show (st.symbols[s]?).bind _ = none
                     rw [hd]
                     exact option_isSome_false_eq_none hval
                   · refine monoR_bind (presR_mono ?_) ?_
                     · split
                       · refine presR_bind (getTypeTopF_pres n _ _) ?_
                         intro st2 tv _
                         exact presR_ok (pres_symListModify st2 _ _ (fun _ => rfl))
                       · refine presR_bind (getTypeTopF_pres n _ _) ?_
                         intro st2 tv _
                         exact presR_ok (pres_addEqual st2 _ _)
                     · intro st3 u _
                       exact monoR_ok (pres_setSlotValue st3 _ _).mono
           | unk i => exact monoR_panic
           | var i => exact monoR_panic
           | str sv => exact monoR_panic
           | num il nv => exact monoR_panic
           | lam a t b c => exact monoR_panic
           | fnType a i o c => exact monoR_panic
           | call f a c => exact monoR_panic)

theorem pollActionF_vok (n : Nat) (regs : List HIRData) (idx : Nat) (ast : ActSt) (st : St) :
    vokR st (pollActionF n regs idx ast st) := by
  unfold pollActionF
  split
  · exact vokR_panic
  · rename_i reg hreg
    cases reg with
    | root => exact vokR_ok_pres (pres_setSlotValue st _ _)
    | exprH e ty => exact vokR_ok_pres (pres_setSlotValue st _ _)
    | number v =>
      dsimp only
      split
      · exact vokR_ok_pres (pres_setSlotValue st _ _)
      · split
        · exact vokR_ok_pres (pres_setSlotValue st _ _)
        · exact vokR_ok (fun hv => hv)
    | lambdaH argReg bodyReg color argTypeReg =>
      cases ast with
      | lambdaA args bodyTy => exact presR_vok (pollLambdaF_pres n st idx _ _ _ _ _ _)
      | plain => exact presR_vok (pollLambdaF_pres n st idx _ _ _ _ _ _)
      | callA tmp => exact presR_vok (pollLambdaF_pres n st idx _ _ _ _ _ _)
      | ruleA hTC => exact presR_vok (pollLambdaF_pres n st idx _ _ _ _ _ _)
    | callH fnReg argReg color isPat =>
      cases ast with
      | callA tmp => exact presR_vok (pollCallF_pres n st idx _ _ _ _ _)
      | plain => exact presR_vok (pollCallF_pres n st idx _ _ _ _ _)
      | lambdaA args bodyTy => exact presR_vok (pollCallF_pres n st idx _ _ _ _ _)
      | ruleA hTC => exact presR_vok (pollCallF_pres n st idx _ _ _ _ _)
    | fnTypeH inReg argReg outReg color =>
      exact presR_vok (pollFnTypeF_pres st idx _ _ _ _)
    | memberAccess lhsReg name =>
      exact presR_vok (pollMemberAccessF_pres st idx _ _)
    | symbolRule symReg lhsReg rhsReg isUp =>
      cases ast with
      | ruleA hTC => exact pollSymbolRuleF_vok n st idx _ _ _ _ _
      | plain => exact pollSymbolRuleF_vok n st idx _ _ _ _ _
      | callA tmp => exact pollSymbolRuleF_vok n st idx _ _ _ _ _
      | lambdaA args bodyTy => exact pollSymbolRuleF_vok n st idx _ _ _ _ _
    | variableH typeReg =>
      dsimp only
      refine vokR_bind (presR_vok ?_) ?_
      · split
        · split
          · exact presR_ok (Pres.refl st)
          · refine presR_bind (getTypeTopF_pres n st _) ?_
            intro st1 tt _
            exact presR_ok ((pres_makeUnknownUniverseF st1).trans (pres_addEqual _ _ _))
        · exact presR_ok (pres_makeUnknownTypeF st)
      · intro st1 ty _
        split
        · exact vokR_ok (fun hv => hv)
        · exact vokR_ok_pres ((pres_allocVar st1 _).trans (pres_setSlotValue _ _ _))
    | unknownH typeReg =>
      dsimp only
      refine vokR_bind (presR_vok ?_) ?_
      · split
        · split
          · exact presR_ok (Pres.refl st)
          · refine presR_bind (getTypeTopF_pres n st _) ?_
            intro st1 tt _
            exact presR_ok ((pres_makeUnknownF st1 _ false).trans (pres_addEqual _ _ _))
        · exact presR_ok (pres_makeUnknownTypeF st)
      · intro st1 ty _
        split
        · exact vokR_ok (fun hv => hv)
        · exact vokR_ok_pres ((pres_makeUnknownF st1 _ false).trans (pres_setSlotValue _ _ _))
    | symbolH name parentReg flags =>
      dsimp only
      refine vokR_bind (presR_vok ?_) ?_
      · split
        · split
          · exact presR_ok (Pres.refl st)
          · split
            · exact presR_ok (Pres.refl st)
            · exact presR_panic
        · exact presR_ok (Pres.refl st)
      · intro st1 par _
        split
        · exact vokR_ok (fun hv => hv)
        · split
          · refine vokR_ok_pres ?_
            exact Pres.trans (pres_makeUnknownTypeF st1)
              (Pres.trans (pres_allocSym _ _ (by rfl))
                (Pres.trans (pres_setParentF _ _) (pres_setSlotValue _ _ _)))
          · refine vokR_ok_pres ?_
            exact Pres.trans (pres_allocSym st1 _ (by rfl))
              (Pres.trans (pres_setParentF _ _) (pres_setSlotValue _ _ _))
    | symbolType symReg typeReg =>
      cases ast <;>
      (dsimp only
       refine presR_vok ?_
       split
       · split
         · split
           · exact presR_panic
           · split
             · exact presR_ok (Pres.refl st)
             · refine presR_bind (getTypeTopF_pres n st _) ?_
               intro st1 tt _
               split
               · exact presR_ok (Pres.trans (pres_makeUnknownUniverseF st1)
                   (Pres.trans (pres_addEqual _ _ _)
                     (Pres.trans (pres_symListModify _ _ _ (by intro d; rfl))
                       (pres_setSlotValue _ _ _))))
               · exact presR_ok (Pres.trans (pres_makeUnknownUniverseF st1)
                   (Pres.trans (pres_addEqual _ _ _)
                     (Pres.trans (pres_addEqual _ _ _) (pres_setSlotValue _ _ _))))
         · exact presR_panic
       · exact presR_ok (Pres.refl st))
    | symbolAssign symReg valReg =>
      cases ast <;>
      (dsimp only
       cases hs1 : st.slotValue symReg with
       | none => exact vokR_ok (fun hv => hv)
       | some symV =>
         cases hs2 : st.slotValue valReg with
         | none => exact vokR_ok (fun hv => hv)
         | some v =>
           cases symV with
           | sym s =>
             dsimp only
             cases hd : st.symbols[s]? with
             | none => exact vokR_panic
             | some d =>
               dsimp only
               by_cases hflag : (d.flags &&& 2 == 0) = true
               · rw [if_pos hflag]
                 exact vokR_ok (fun hv => hv)
               · rw [if_neg hflag]
                 by_cases hval : d.value.isSome = true
                 · rw [if_pos hval]
                   exact vokR_panic
                 · rw [if_neg hval]
                   refine @vokR_weaken_sigma _ st
                     { st with symbols :=
                        listModify (fun sd => { sd with value := some v }) s st.symbols }
                     _ (fun i => rfl) ?_
                   refine vokR_bind (presR_vok ?_) ?_
                   · split
                     · refine presR_bind (getTypeTopF_pres n _ _) ?_
                       intro st2 tv _
                       exact presR_ok (pres_symListModify st2 _ _ (fun _ => rfl))
                     · refine presR_bind (getTypeTopF_pres n _ _) ?_
                       intro st2 tv _
                       exact presR_ok (pres_addEqual st2 _ _)
                   · intro st3 u _
                     exact vokR_ok_pres (pres_setSlotValue st3 _ _)
           | unk i => exact vokR_panic
           | var i => exact vokR_panic
           | str sv => exact vokR_panic
           | num il nv => exact vokR_panic
           | lam a t b c => exact vokR_panic
           | fnType a i o c => exact vokR_panic
           | call f a c => exact vokR_panic)

theorem hirSweepF_mono (n : Nat) (regs : List HIRData) :
    ∀ acts st changed acc, monoR st (hirSweepF n regs acts st changed acc) := by
  intro acts
  induction acts with
  | nil =>
    intro st changed acc
    exact monoR_ok (Mono.monoRefl st)
  | cons pa rest ih =>
    intro st changed acc
    obtain ⟨i, a⟩ := pa
    refine monoR_bind (pollActionF_mono n regs i a st) ?_
    intro st1 r _
    split
    · exact ih st1 _ _
    · exact ih st1 _ _
    · split
      · exact monoR_panic
      · exact ih st1 _ _

theorem hirSweepF_vok (n : Nat) (regs : List HIRData) :
    ∀ acts st changed acc, vokR st (hirSweepF n regs acts st changed acc) := by
  intro acts
  induction acts with
  | nil =>
    intro st changed acc
    exact vokR_ok (fun hv => hv)
  | cons pa rest ih =>
    intro st changed acc
    obtain ⟨i, a⟩ := pa
    refine vokR_bind (pollActionF_vok n regs i a st) ?_
    intro st1 r _
    split
    · exact ih st1 _ _
    · exact ih st1 _ _
    · split
      · exact vokR_panic
      · exact ih st1 _ _

theorem hirIterateF_mono (n : Nat) (regs : List HIRData) (acts : List (Nat × ActSt)) (st : St) :
    monoR st (hirIterateF n regs acts st) := by
  unfold hirIterateF
  refine monoR_bind (hirSweepF_mono n regs acts st false []) ?_
  intro st1 p _
  refine monoR_bind (csolverEvaluateF_mono n st1) ?_
  intro st2 solverChanged _
  exact monoR_ok (Mono.monoRefl st2)

theorem hirIterateF_vok (n : Nat) (regs : List HIRData) (acts : List (Nat × ActSt)) (st : St) :
    vokR st (hirIterateF n regs acts st) := by
  unfold hirIterateF
  refine vokR_bind (hirSweepF_vok n regs acts st false []) ?_
  intro st1 p _
  refine vokR_bind (vokR_csolverEvaluateF n st1) ?_
  intro st2 solverChanged _
  exact vokR_ok (fun hv => hv)

theorem hirRunF_mono : ∀ n regs acts st, monoR st (hirRunF n regs acts st) := by
  intro n
  induction n with
  | zero =>
    intro regs acts st
    exact monoR_fuel
  | succ n ih =>
    intro regs acts st
    rw [hirRunF]
    refine monoR_bind (hirIterateF_mono n regs acts st) ?_
    intro st1 p _
    split
    · exact ih regs p.2 st1
    · exact monoR_ok (Mono.monoRefl st1)

theorem hirRunF_vok : ∀ n regs acts st, vokR st (hirRunF n regs acts st) := by
  intro n
  induction n with
  | zero =>
    intro regs acts st
    exact vokR_fuel
  | succ n ih =>
    intro regs acts st
    rw [hirRunF]
    refine vokR_bind (hirIterateF_vok n regs acts st) ?_
    intro st1 p _
    split
    · exact ih regs p.2 st1
    · exact vokR_ok (fun hv => hv)

/-! ## Claims C1, C2, C9 -/

theorem addCon_mem (st : St) (c : Constraint) : c ∈ (st.addCon c).constraints := by
  unfold St.addCon
  exact List.mem_append_right _ (List.mem_singleton.mpr rfl)

/-- **C1.** The resolved-Unknown graph stays acyclic across every run of the
constraint solver (`ConstraintSolver.evaluate`) and of the HIR solver
(`HIRSolver.run`): whenever the invariant "no set Unknown occurs
transitively in its own value" holds before, it holds after.  The occurs
check performed before every value write (`occursCheckF_sound` feeding
`valuesOk_write`) is what the preservation proof rests on. -/
theorem claim_C1_acyclic_invariant :
    (∀ n st st' b, ValuesOk st → csolverEvaluateF n st = Res.ok st' b → ValuesOk st') ∧
    (∀ n regs acts st st' r, ValuesOk st → hirRunF n regs acts st = Res.ok st' r →
      ValuesOk st') :=
  ⟨fun n st st' b hv h => vokR_csolverEvaluateF n st st' b h hv,
   fun n regs acts st st' r hv h => hirRunF_vok n regs acts st st' r h hv⟩

theorem claim_C1_acyclic_invariant_witness : ValuesOk initSt ∧ ValuesOk initSt :=
  have h0 : ValuesOk initSt := fun u e he w hw hr => by simp [sigma, initSt] at he
  ⟨claim_C1_acyclic_invariant.1 2 initSt initSt false h0 rfl,
   claim_C1_acyclic_invariant.2 2 [] [] initSt initSt [] h0 rfl⟩

/-- A store whose single Unknown is already resolved to the literal `3`. -/
def w2St : St :=
  { initSt with unknowns := [⟨some (.num false 3), none, false, []⟩] }

/-- **C2.** Once set, a value is never overwritten: (a) `setUnknown` on an
already-set Unknown leaves its value untouched and instead posts an `Equal`
constraint between the old and the new value; (b) a whole
`HIRSolver.run` — which includes every constraint-solver pass and the
Symbol-value writes of the `SYMBOL_ASSIGN` action — is write-once monotone
on both the Unknown-value and the Symbol-value views. -/
theorem claim_C2_write_once :
    (∀ n st target value st' b old, sigma st target = some old →
      setUnknownF n st target value = Res.ok st' b →
        sigma st' target = some old ∧
          (b = true → Constraint.equal old value ∈ st'.constraints)) ∧
    (∀ n regs acts st st' r, hirRunF n regs acts st = Res.ok st' r → Mono st st') := by
  constructor
  · intro n st target value st' b old hold hrun
    unfold setUnknownF at hrun
    cases hocc : occursCheckF st n target value with
    | none =>
      rw [hocc] at hrun
      cases hrun
    | some bb =>
      rw [hocc] at hrun
      cases bb with
      | false =>
        cases hrun
        refine ⟨hold, ?_⟩
        intro hb
        cases hb
      | true =>
        cases hts : (show Res Unit from
            match st.unkType target with
            | some t => (getTypeTopF n st value).bind fun st1 tv =>
                Res.ok (st1.addEqual t tv) ()
            | none => Res.ok st ()) with
        | fuel =>
          rw [hts] at hrun
          simp only [Res.bind_fuel] at hrun
          cases hrun
        | panic =>
          rw [hts] at hrun
          simp only [Res.bind_panic] at hrun
          cases hrun
        | ok st2 u =>
          rw [hts] at hrun
          simp only [Res.bind_ok] at hrun
          have hp : Pres st st2 := by
            revert hts
            split
            · intro hts
              refine presR_bind (getTypeTopF_pres n st _) ?_ st2 u hts
              intro st1 tv _
              exact presR_ok (pres_addEqual st1 _ _)
            · intro hts
              cases hts
              exact Pres.refl st
          have h2 : sigma st2 target = some old := (hp.1 target).trans hold
          rw [h2] at hrun
          cases hrun
          refine ⟨((pres_addEqual st2 old value).1 target).trans h2, ?_⟩
          intro _
          exact addCon_mem st2 _
  · intro n regs acts st st' r hrun
    exact hirRunF_mono n regs acts st st' r hrun

theorem claim_C2_write_once_witness :
    (sigma (w2St.addEqual (.num false 3) (.num false 7)) 0 = some (Expr.num false 3) ∧
      (true = true →
        Constraint.equal (.num false 3) (.num false 7) ∈
          (w2St.addEqual (.num false 3) (.num false 7)).constraints)) ∧
    Mono w2St w2St :=
  ⟨claim_C2_write_once.1 5 w2St 0 (.num false 7) _ true (.num false 3) rfl rfl,
   claim_C2_write_once.2 2 [] [] w2St w2St [] rfl⟩

/-- The register file of the C9 counterexample: one `SYMBOL_RULE` register
whose symbol, lhs and rhs slots are registers 1, 2, 3. -/
def c9Regs : List HIRData := [.symbolRule 1 2 3 false]

/-- A store poised to poll that rule: the lhs slot holds `f(?0)` with `?0`
an unresolved pattern Unknown, and the rule already has its type
constraint (`hasTypeConstraint = true`). -/
def c9St : St :=
  { initSt with
    unknowns := [⟨none, some (.sym idUntyped), true, []⟩],
    hir := [⟨false, none, none⟩, ⟨false, none, some (.sym 12)⟩,
      ⟨false, none, some (.call (.sym 12) (.unk 0) 0)⟩,
      ⟨false, none, some (.num false 1)⟩] }

/-- The value of `?0` after the poll action ran. -/
def c9After : Option Expr :=
  match pollActionF 20 c9Regs 0 (.ruleA true) c9St with
  | .ok st' _ => sigma st' 0
  | _ => none

/-- **C9 (counterexample).** The HIR solver does write `Unknown.value`:
polling a `SYMBOL_RULE` register runs `convertRule`, which writes a fresh
Variable into each unresolved pattern Unknown of the lhs — here `?0` goes
from unset to `Variable 1` within a single `pollAction` call. -/
theorem claim_C9_counterexample_rule_write :
    sigma c9St 0 = none ∧ c9After = some (Expr.var 1) := by
  constructor
  · rfl
  · rfl

/-- **C9 (amended).** The accurate frame property: the evaluator, the type
solver and substitution never write any `Unknown.value` (they preserve the
assignment pointwise); the HIR solver does write (see the counterexample),
but — like the constraint solver — only ever writes unset Unknowns, so set
values are preserved by a whole `HIRSolver.run`. -/
theorem claim_C9_amended_frame :
    (∀ n st e st' v, evalF n st e = Res.ok st' v → ∀ i, sigma st' i = sigma st i) ∧
    (∀ n st e st' t, getTypeTopF n st e = Res.ok st' t → ∀ i, sigma st' i = sigma st i) ∧
    (∀ solver n st reps e st' r, substTopF solver n st reps e = Res.ok st' r →
      ∀ i, sigma st' i = sigma st i) ∧
    (∀ n regs acts st st' r, hirRunF n regs acts st = Res.ok st' r →
      ∀ i v, sigma st i = some v → sigma st' i = some v) :=
  ⟨fun n st e st' v h => ((evalF_pres_all n).1 st e st' v h).1,
   fun n st e st' t h => (getTypeTopF_pres n st e st' t h).1,
   fun solver n st reps e st' r h => (substTopF_pres solver n st reps e st' r h).1,
   fun n regs acts st st' r h => (hirRunF_mono n regs acts st st' r h).1⟩

theorem claim_C9_amended_frame_witness :
    sigma w2St 0 = sigma w2St 0 ∧ sigma w2St 0 = some (Expr.num false 3) :=
  ⟨claim_C9_amended_frame.1 1 w2St (.num false 0) w2St (.num false 0) rfl 0,
   claim_C9_amended_frame.2.2.2 2 [] [] w2St w2St [] rfl 0 (.num false 3) rfl⟩

end TL
